import Mathlib

/-!
Verification of the cog-council-meetings backend.

This file gives a shallow embedding of the computational core of the
repository — the agenda document parser and upsert pipeline
(`backend/ingestion/guelph.py`), the topic classifier
(`backend/services/summarization.py`), the now/next estimator
(`backend/api/routes/meetings.py`), and the relevant schema constraints
(`backend/db/models.py`) — and proves or refutes the specified properties
of those components.

Python strings are modelled as Lean `String`s (code points agree on the
ASCII fragment the data lives in); Python string helpers used by the code
(`strip`, `lower`, `upper`, substring tests, `replace`, slicing) are
embedded below.  Datetimes are modelled as integers (timestamps), with the
external datetime library (`dateutil` parsing, `pytz` localization, the
end-time `replace` combination) abstracted as function parameters since it
is an external collaborator.  Database rows are modelled as records, each
table as a list of rows in insertion order, and SQLAlchemy's
`query(...).filter_by(...).first()` as `List.find?`; mutation of a fetched
row is `updateFirst`, and autoincrement primary keys are per-table
counters.
-/

namespace CogCouncil

/-! ### Python string primitives -/

/-- Python whitespace test (ASCII fragment), as used by `str.strip`. -/
def pySpace (c : Char) : Bool := c.isWhitespace

/-- `str.strip()` : drop whitespace from both ends. -/
def pyStrip (s : String) : String :=
  ⟨(((s.toList.dropWhile pySpace).reverse.dropWhile pySpace).reverse)⟩

/-- `str.lower()` (ASCII fragment). -/
def pyLower (s : String) : String := ⟨s.toList.map Char.toLower⟩

/-- `str.upper()` (ASCII fragment). -/
def pyUpper (s : String) : String := ⟨s.toList.map Char.toUpper⟩

/-- `str.rstrip(".")` : drop trailing dots. -/
def rstripDots (s : String) : String :=
  ⟨((s.toList.reverse.dropWhile (fun c => c = '.')).reverse)⟩

/-- Python `needle in hay` for strings: contiguous substring test. -/
def listIsInfix (needle : List Char) : List Char → Bool
  | [] => needle.isEmpty
  | c :: rest => needle.isPrefixOf (c :: rest) || listIsInfix needle rest

/-- Python `needle in hay` on `String`. -/
def containsSub (hay needle : String) : Bool :=
  listIsInfix needle.toList hay.toList

/-- Python `s.startswith(p)`. -/
def pyStartsWith (s p : String) : Bool := p.toList.isPrefixOf s.toList

/-- Python slice `s[n:]` (by code points). -/
def sliceFrom (n : Nat) (s : String) : String := ⟨s.toList.drop n⟩

/-- Python slice `s[:n]` (by code points). -/
def pyTake (n : Nat) (s : String) : String := ⟨s.toList.take n⟩

/-- Python `s.replace(old, "")` on char lists for a non-empty `old`:
    remove every leftmost non-overlapping occurrence.  The `fuel`
    argument makes the recursion structural (so the kernel can evaluate
    it); every step consumes at least one character, so `fuel :=
    s.length` never runs out. -/
def removeAllGo (needle : List Char) : Nat → List Char → List Char
  | _, [] => []
  | 0, s => s
  | fuel + 1, c :: rest =>
    if needle ≠ [] ∧ needle.isPrefixOf (c :: rest) then
      removeAllGo needle fuel ((c :: rest).drop needle.length)
    else
      c :: removeAllGo needle fuel rest

/-- Python `s.replace(old, "")` on `String`. -/
def removeAll (needle s : String) : String :=
  ⟨removeAllGo needle.toList s.toList.length s.toList⟩

/-- Python `s.split(sep)` for a non-empty `sep` (fuel as in
    `removeAllGo`): split on leftmost non-overlapping occurrences,
    keeping empty pieces, like Python does. -/
def splitOnGo (sep : List Char) : Nat → List Char → List Char → List (List Char)
  | _, [], acc => [acc.reverse]
  | 0, rest, acc => [acc.reverse ++ rest]
  | fuel + 1, c :: rest, acc =>
    if sep.isPrefixOf (c :: rest) then
      acc.reverse :: splitOnGo sep fuel ((c :: rest).drop sep.length) []
    else
      splitOnGo sep fuel rest (c :: acc)

/-- Python `s.split(sep)` on `String`. -/
def pySplit (s sep : String) : List String :=
  (splitOnGo sep.toList s.toList.length s.toList []).map (fun cs => ⟨cs⟩)

/-- Python `s.replace(" ", "_")` (single-character replace is a char map). -/
def spacesToUnderscores (s : String) : String :=
  ⟨s.toList.map (fun c => if c = ' ' then '_' else c)⟩

/-- Python `int(s)` restricted to the shapes appearing in item numbers:
    optional surrounding whitespace, an optional sign, then decimal digits.
    Returns `none` where Python raises `ValueError`. -/
def digitsToNat? : List Char → Option Nat
  | [] => none
  | cs =>
    if cs.all Char.isDigit then
      some (cs.foldl (fun acc c => acc * 10 + (c.toNat - '0'.toNat)) 0)
    else none

def pyInt? (s : String) : Option Int :=
  match (pyStrip s).toList with
  | '-' :: rest => (digitsToNat? rest).map (fun n => -(n : Int))
  | '+' :: rest => (digitsToNat? rest).map (fun n => (n : Int))
  | cs => (digitsToNat? cs).map (fun n => (n : Int))

/-! ### Python string ordering (`sorted(..., key=str)`) -/

/-- Python `<` on strings: lexicographic comparison of code points, a
    proper prefix comparing less. -/
def lexLt : List Char → List Char → Bool
  | [], [] => false
  | [], _ :: _ => true
  | _ :: _, [] => false
  | a :: as, b :: bs => if a < b then true else if a = b then lexLt as bs else false

def pyStrLt (s t : String) : Bool := lexLt s.toList t.toList

theorem lexLt_asymm : ∀ {x y : List Char}, lexLt x y = true → lexLt y x = false
  | [], [], h => by simp [lexLt] at h
  | [], _ :: _, _ => by simp [lexLt]
  | _ :: _, [], h => by simp [lexLt] at h
  | a :: as, b :: bs, h => by
    simp only [lexLt] at h ⊢
    by_cases hab : a < b
    · have : ¬ b < a := lt_asymm hab
      simp [this, (ne_of_lt hab).symm]
    · by_cases heq : a = b
      · subst heq
        simp [lt_irrefl, hab] at h ⊢
        exact lexLt_asymm h
      · simp [hab, heq] at h

theorem lexLt_eq_of_not_lt : ∀ {x y : List Char},
    lexLt x y = false → lexLt y x = false → x = y
  | [], [], _, _ => rfl
  | [], _ :: _, h, _ => by simp [lexLt] at h
  | _ :: _, [], _, h => by simp [lexLt] at h
  | a :: as, b :: bs, h, h' => by
    simp only [lexLt] at h h'
    by_cases hab : a < b
    · simp [hab] at h
    · by_cases heq : a = b
      · subst heq
        simp [lt_irrefl, hab] at h h'
        rw [lexLt_eq_of_not_lt h h']
      · by_cases hba : b < a
        · simp [hba, (Ne.symm heq)] at h'
        · exact absurd (lt_or_gt_of_ne heq) (by simp [hab, hba])

theorem lexLt_trans : ∀ {x y z : List Char},
    lexLt x y = true → lexLt y z = true → lexLt x z = true
  | [], _, _ :: _, _, _ => by simp [lexLt]
  | [], [], z, h, h' => by simpa [lexLt] using h'
  | [], _ :: _, [], _, h' => by simp [lexLt] at h'
  | _ :: _, [], _, h, _ => by simp [lexLt] at h
  | _ :: _, _ :: _, [], _, h' => by simp [lexLt] at h'
  | a :: as, b :: bs, c :: cs, h, h' => by
    simp only [lexLt] at h h' ⊢
    by_cases hab : a < b
    · by_cases hbc : b < c
      · simp [lt_trans hab hbc]
      · by_cases hbceq : b = c
        · subst hbceq; simp [hab]
        · simp [hbc, hbceq] at h'
    · by_cases habeq : a = b
      · subst habeq
        simp [lt_irrefl, hab] at h
        by_cases hbc : a < c
        · simp [hbc]
        · by_cases hbceq : a = c
          · subst hbceq
            simp [lt_irrefl, hbc] at h' ⊢
            exact lexLt_trans h h'
          · simp [hbc, hbceq] at h'
      · simp [hab, habeq] at h

/-! ### `backend/services/summarization.py` -/

/-- The fixed topic vocabulary (`VALID_TAGS`). -/
def VALID_TAGS : List String :=
  ["budget", "taxes", "zoning", "housing", "homelessness",
   "transit", "roads", "safety", "environment", "parks",
   "water", "governance", "development", "social_services"]

/-- The fixed topic → keyword-list table (`TAG_KEYWORDS`), in declaration
    order (Python dicts preserve insertion order). -/
def TAG_KEYWORDS : List (String × List String) :=
  [("budget", ["budget", "operating budget", "capital budget", "fiscal", "surplus", "deficit"]),
   ("taxes", ["tax", "taxes", "levy", "tax rate"]),
   ("zoning", ["zoning", "zone", "rezone", "land use"]),
   ("housing", ["housing", "affordable housing", "rental", "residential development"]),
   ("homelessness", ["homeless", "shelter", "sheltering", "unsheltered"]),
   ("transit", ["transit", "bus", "guelph transit", "public transit"]),
   ("roads", ["road", "roads", "street", "traffic", "speed limit", "intersection"]),
   ("safety", ["safety", "safe", "speed limit", "pedestrian", "crosswalk"]),
   ("environment", ["climate", "environment", "emissions", "green", "sustainability"]),
   ("parks", ["park", "parks", "recreation", "trail", "green space"]),
   ("water", ["water", "wastewater", "stormwater", "sewer"]),
   ("governance", ["bylaw", "by-law", "council", "committee", "appointment", "vacancy"]),
   ("development", ["development", "site plan", "subdivision", "building permit"]),
   ("social_services", ["social", "community services", "shelter", "daytime"])]

/-- The `for line in lines: if len(line) > 30: summary = line[:300]; break`
    loop of `_keyword_summarize_and_tag`, with `summary` initialized `""`. -/
def firstLongLine : List String → String
  | [] => ""
  | l :: rest => if 30 < l.length then pyTake 300 l else firstLongLine rest

/-- `_keyword_summarize_and_tag` (summarization.py:42-62). -/
def keywordSummarizeAndTag (raw_text : String) : String × List String :=
  let lines := ((pySplit raw_text "\n").map pyStrip).filter (fun l => l ≠ "")
  let summary := firstLongLine lines
  let summary :=
    if summary = "" then
      match lines with
      | [] => ""
      | l :: _ => pyTake 300 l
    else summary
  let text_lower := pyLower raw_text
  let tags := TAG_KEYWORDS.foldl
    (fun acc p => if p.2.any (fun kw => containsSub text_lower kw) then acc ++ [p.1] else acc) []
  let tags := if tags = [] then ["general"] else tags
  (summary, tags)

/-- One step of the response-parsing loop of `_llm_summarize_and_tag`
    (summarization.py:101-110): the accumulator is the pair of mutable
    variables `(summary, tags)`. -/
def llmParseLine (acc : String × List String) (line0 : String) : String × List String :=
  let line := pyStrip line0
  if pyStartsWith (pyUpper line) "SUMMARY:" then
    (pyStrip (sliceFrom 8 line), acc.2)
  else if pyStartsWith (pyUpper line) "TAGS:" then
    let raw_tags := pyStrip (sliceFrom 5 line)
    (acc.1,
      (pySplit raw_tags ",").foldl
        (fun ts t0 =>
          let t := spacesToUnderscores (pyLower (pyStrip t0))
          if t ∈ VALID_TAGS then ts ++ [t] else ts)
        acc.2)
  else acc

/-- The provider-response parsing path of `_llm_summarize_and_tag`
    (summarization.py:95-119): given `message.content[0].text`, strip it,
    locate `SUMMARY:` / `TAGS:` lines, filter tag tokens to `VALID_TAGS`,
    fall back to the truncated raw response / `["general"]`.  The network
    call itself is I/O and is not modelled; this is the pure parse of an
    arbitrary provider response. -/
def llmParseResponse (text : String) : String × List String :=
  let response_text := pyStrip text
  let parsed := (pySplit response_text "\n").foldl llmParseLine ("", [])
  let summary := if parsed.1 = "" then pyTake 300 response_text else parsed.1
  let tags := if parsed.2 = [] then ["general"] else parsed.2
  (summary, tags)

/-! ### `backend/ingestion/guelph.py` — lookup tables and small helpers -/

/-- `SECTION_MAP` (guelph.py:34-45). -/
def SECTION_MAP : List (Int × String) :=
  [(1, "opening"), (2, "closed_meeting"), (3, "closed_summary"), (4, "open_meeting"),
   (5, "confirmation_of_minutes"), (6, "consent"), (7, "items_for_discussion"),
   (8, "bylaws"), (9, "announcements"), (10, "adjournment")]

/-- `MEETING_TYPE_KEYWORDS` (guelph.py:47-54), in declaration order. -/
def MEETING_TYPE_KEYWORDS : List (String × String) :=
  [("committee of the whole", "committee"), ("city council", "council"),
   ("planning", "planning"), ("public services", "committee"),
   ("governance", "committee"), ("audit", "committee")]

/-- `_infer_meeting_type` (guelph.py:70-75). -/
def inferMeetingType (title : String) : String :=
  let title_lower := pyLower title
  match MEETING_TYPE_KEYWORDS.find? (fun p => containsSub title_lower p.1) with
  | some p => p.2
  | none => "council"

/-- `_infer_section` (guelph.py:78-84): `int(item_number.split(".")[0])`
    looked up in `SECTION_MAP`, any parse failure or unmapped component
    giving `"other"`. -/
def inferSection (item_number : String) : String :=
  match (pySplit item_number ".").head? with
  | none => "other"
  | some comp =>
    match pyInt? comp with
    | none => "other"
    | some major =>
      match SECTION_MAP.find? (fun p => p.1 = major) with
      | some p => p.2
      | none => "other"

/-- An eScribe URL after `urlparse`/`parse_qs`: the raw URL string plus its
    parsed query multimap (`parse_qs` drops blank values, so pairs here are
    the surviving ones, in order). -/
structure Url where
  raw : String
  params : List (String × String)

/-- `_extract_guid_from_url` (guelph.py:60-67):
    `params.get("Id") or params.get("id")`, then the first value;
    `ValueError` when neither key is present. -/
def extractGuid (url : Url) : Except String String :=
  let ids := (url.params.filter (fun p => p.1 = "Id")).map (·.2)
  let ids := if ids.isEmpty then (url.params.filter (fun p => p.1 = "id")).map (·.2) else ids
  match ids with
  | [] => .error ("No Id parameter found in URL: " ++ url.raw)
  | v :: _ => .ok v

/-! ### The agenda document model

`BeautifulSoup` itself is an external collaborator; the parsed document is
modelled by what the parser reads from it: the header elements keyed by
their CSS classes, and the `div.AgendaItemCounter`-bearing item containers
in document order.  `find_all("div", class_="X")` matches a `div` whose
(multi-valued) `class` attribute contains the token `X`; element text is
modelled post-`get_text`. -/

/-- One agenda item container, as seen from its counter `div`. -/
structure RawContainer where
  /-- class tokens of the counter `div` -/
  counterClasses : List String
  /-- `get_text(strip=True)` of the counter, before `rstrip(".")` -/
  counterText : String
  /-- whether `find_parent("div", class_=re.compile(r"^AgendaItem\b"))` finds a parent -/
  hasItemParent : Bool
  /-- extracted title text (`""` when the title element or link text is absent/empty) -/
  titleText : String
  /-- whether `find_parent("div", class_="AgendaItemContainer")` finds a parent -/
  hasContainerParent : Bool
  /-- `get_text(separator="\n", strip=True)` of each `div.MotionText`, in order -/
  motionTexts : List String
  /-- `get_text(separator="\n", strip=True)` of each `div.AgendaItemDescription`, in order -/
  descTexts : List String
deriving DecidableEq

/-- The header region of the document. -/
structure HtmlDoc where
  /-- text of `h1.AgendaHeaderTitle`, `none` when the element is absent -/
  headerTitleText : Option String
  /-- the `datetime` attribute inside `span.AgendaMeetingTimeStart`, when present -/
  startAttr : Option String
  /-- the `datetime` attribute inside `span.AgendaMeetingTimeEnd`, when present -/
  endAttr : Option String
  /-- text of `div.Location`, when present -/
  locationText : Option String
  /-- text of `div.Address1`, when present -/
  address1Text : Option String
  /-- the item containers, in document order -/
  containers : List RawContainer

/-- A parsed agenda item record (the dicts built in guelph.py:227-234). -/
structure ParsedItem where
  item_number : String
  title : String
  raw_text : String
  sectionName : String
deriving DecidableEq, Inhabited

/-- The per-counter body of the `_parse_agenda_items` loop
    (guelph.py:181-234); `none` models the `continue` branches. -/
def parseOneContainer (c : RawContainer) : Option ParsedItem :=
  let item_number_raw := rstripDots (pyStrip c.counterText)
  if item_number_raw = "" then none
  else if ¬ c.hasItemParent then none
  else
    let title := c.titleText
    if title = "" then none
    else
      let raw_parts := [item_number_raw ++ " " ++ title]
      let raw_parts :=
        if c.hasContainerParent then
          raw_parts
            ++ (c.motionTexts.filter (fun t => t ≠ "")).map (fun t => "Recommendation: " ++ t)
            ++ c.descTexts.filter (fun t => t ≠ "")
        else raw_parts
      some { item_number := item_number_raw, title := title,
             raw_text := String.intercalate "\n" raw_parts,
             sectionName := inferSection item_number_raw }

/-- `_parse_agenda_items` (guelph.py:163-236): iterate the counters found
    by `find_all("div", class_="AgendaItemCounter")` in document order. -/
def parseAgendaItems (containers : List RawContainer) : List ParsedItem :=
  (containers.filter (fun c => "AgendaItemCounter" ∈ c.counterClasses)).filterMap
    parseOneContainer

/-- A container carrying the closed-session marker class
    (`ClosedAgendaItemCounter`, guelph.py:173-174). -/
def isClosedSession (c : RawContainer) : Bool :=
  "ClosedAgendaItemCounter" ∈ c.counterClasses

/-- The header record returned by `_parse_meeting_header`. -/
structure MeetingHeader where
  title : String
  start_datetime : Option Int
  end_datetime : Option Int
  location : Option String
deriving DecidableEq

/-- `_parse_meeting_header` (guelph.py:109-160).  `dtparse` abstracts
    `dateutil.parser.parse`, `localize` abstracts `tz.localize`, and
    `combineEnd start end` abstracts
    `start_dt.replace(hour=end.hour, minute=end.minute, second=0)`;
    exceptions from the external datetime parser are not modelled. -/
def parseMeetingHeader (dtparse : String → Int) (localize : Int → Int)
    (combineEnd : Int → Int → Int) (doc : HtmlDoc) : MeetingHeader :=
  let raw_title := doc.headerTitleText.getD "Meeting"
  let title := pyStrip (removeAll "Agenda" (removeAll "Meeting Agenda" raw_title))
  let start_dt := doc.startAttr.map (fun raw => localize (dtparse raw))
  let end_dt :=
    match doc.endAttr, start_dt with
    | some raw, some st => some (combineEnd st (dtparse raw))
    | _, _ => none
  let location_parts :=
    (match doc.locationText with | some t => [t] | none => [])
      ++ (match doc.address1Text with | some t => [t] | none => [])
  let location := if location_parts.isEmpty then none
    else some (String.intercalate ", " location_parts)
  { title := title, start_datetime := start_dt, end_datetime := end_dt, location := location }

/-- The spec's reading of the title rule: only a **trailing** boilerplate
    suffix (`"Meeting Agenda"`, else `"Agenda"`) is stripped, and other
    occurrences are left unchanged.  (Defined from the spec's words, for
    comparison with the code's behaviour.) -/
def specTitleTrailingOnly (raw : String) : String :=
  if pyStartsWith (⟨raw.toList.reverse⟩) (⟨"Meeting Agenda".toList.reverse⟩) then
    pyStrip ⟨raw.toList.take (raw.toList.length - "Meeting Agenda".toList.length)⟩
  else if pyStartsWith (⟨raw.toList.reverse⟩) (⟨"Agenda".toList.reverse⟩) then
    pyStrip ⟨raw.toList.take (raw.toList.length - "Agenda".toList.length)⟩
  else raw

/-! ### `backend/db/models.py` — row models

Each table is a list of rows in insertion order; autoincrement primary
keys are per-table counters.  Timestamps are `Int` seconds. -/

structure MuniRow where
  id : Nat
  slug : String
  timezone : String
deriving DecidableEq

/-- `GUELPH_LIVESTREAM_URL` (config.py). -/
def GUELPH_LIVESTREAM_URL : String := "https://guelph.ca/news/live/"

structure MeetingRow where
  id : Nat
  municipality_id : Nat
  external_id : String
  title : String
  mtype : String
  start_datetime : Option Int
  end_datetime : Option Int
  location : Option String
  status : String
  agenda_url : String
  livestream_url : String
deriving DecidableEq

structure ItemRow where
  id : Nat
  meeting_id : Nat
  item_number : String
  title : String
  raw_text : String
  summary_text : String
  sectionName : String
  estimated_start_offset_minutes : Option Int
  status : String
deriving DecidableEq

structure TagRow where
  id : Nat
  name : String
deriving DecidableEq

structure DB where
  munis : List MuniRow
  meetings : List MeetingRow
  items : List ItemRow
  tags : List TagRow
  /-- the `agenda_item_tag` association rows `(agenda_item_id, tag_id)` -/
  itemTags : List (Nat × Nat)
  nextMeetingId : Nat
  nextItemId : Nat
  nextTagId : Nat

/-- `models.py:68` declares `Meeting.start_datetime` with
    `nullable=False`: the NOT NULL column constraint a meeting row must
    satisfy to be insertable. -/
def meetingStartNotNull (m : MeetingRow) : Bool := m.start_datetime.isSome

/-! ### `_estimate_current_next` (backend/api/routes/meetings.py:90-123) -/

/-- `sorted(meeting.agenda_items, key=lambda i: i.item_number)` sorts by
    Python string `<` on `item_number`; `sorted` is stable, as is
    `List.insertionSort` with a non-strict relation. -/
def itemLe (a b : ItemRow) : Prop := pyStrLt b.item_number a.item_number = false

/-- Transitivity of the non-strict order `¬(· < ·)` induced by `lexLt`. -/
theorem lexLt_le_trans {x y z : List Char} (h1 : lexLt y x = false)
    (h2 : lexLt z y = false) : lexLt z x = false := by
  cases hzx : lexLt z x with
  | false => rfl
  | true =>
    cases hyz : lexLt y z with
    | true =>
      rw [lexLt_trans hyz hzx] at h1
      exact absurd h1 (by decide)
    | false =>
      have heq : y = z := lexLt_eq_of_not_lt hyz h2
      rw [heq] at h1
      rw [h1] at hzx
      exact absurd hzx (by decide)

instance : DecidableRel itemLe := fun a b =>
  inferInstanceAs (Decidable (pyStrLt b.item_number a.item_number = false))

instance : IsTotal ItemRow itemLe where
  total a b := by
    cases hv : pyStrLt b.item_number a.item_number with
    | false => exact Or.inl hv
    | true => exact Or.inr (lexLt_asymm hv)

instance : IsTrans ItemRow itemLe where
  trans a b c hab hbc := by
    unfold itemLe pyStrLt at hab hbc ⊢
    exact lexLt_le_trans hab hbc

def sortItems (items : List ItemRow) : List ItemRow := List.insertionSort itemLe items

/-- The `for i, item in enumerate(items)` walk of `_estimate_current_next`
    (meetings.py:112-121), carrying the mutable `current` / `next_item`;
    the `else:` branch models the `break`. -/
def walkItems (elapsed : ℚ) (current next_item : Option ItemRow) :
    List ItemRow → Option ItemRow × Option ItemRow
  | [] => (current, next_item)
  | item :: rest =>
    let offset : Int := item.estimated_start_offset_minutes.getD 0
    if (offset : ℚ) ≤ elapsed then
      walkItems elapsed (some item) rest.head? rest
    else if current.isNone then (current, some item)
    else (current, next_item)

/-- `_estimate_current_next` (meetings.py:90-123): `startDt`/`now` are
    timestamps in seconds, `elapsed = (now - start).total_seconds() / 60.0`
    in (exact) minutes. -/
def estimateCurrentNext (startDt : Option Int) (now : Int) (itemsIn : List ItemRow) :
    Option ItemRow × Option ItemRow :=
  let items := sortItems itemsIn
  match items with
  | [] => (none, none)
  | first :: rest =>
    match startDt with
    | none => (some first, rest.head?)
    | some st =>
      let elapsed : ℚ := ((now - st : Int) : ℚ) / 60
      walkItems elapsed none none (first :: rest)

/-! ### `ingest_meeting_from_url` (guelph.py:239-352)

The network fetch (`_fetch_html`) and `BeautifulSoup` construction are
I/O; ingestion is modelled from the parsed document (`HtmlDoc`) on.
`summarize_and_tag` is passed in as `classify` (its remote strategy is a
network call; the claims about ingestion hold for any classifier
function).  SQLAlchemy's mutation of a row fetched by `first()` is
`updateFirst`. -/

/-- Replace the first element satisfying `p` by its image under `f`
    (mutating the row object returned by `query(...).first()`). -/
def updateFirst (p : α → Bool) (f : α → α) : List α → List α
  | [] => []
  | x :: xs => if p x then f x :: xs else x :: updateFirst p f xs

/-- `_get_or_create_tag` (guelph.py:87-93); returns the updated database
    and the tag id. -/
def getOrCreateTag (db : DB) (tag_name : String) : DB × Nat :=
  match db.tags.find? (fun t => t.name = tag_name) with
  | some t => (db, t.id)
  | none =>
    let t : TagRow := { id := db.nextTagId, name := tag_name }
    ({ db with tags := db.tags ++ [t], nextTagId := db.nextTagId + 1 }, t.id)

/-- One step of the tag-linking loop (guelph.py:338-340):
    `tag_obj = _get_or_create_tag(db, tag_name); agenda_item.tags.append(tag_obj)`. -/
def relinkStep (itemId : Nat) (db : DB) (tag_name : String) : DB :=
  let p := getOrCreateTag db tag_name
  { p.1 with itemTags := p.1.itemTags ++ [(itemId, p.2)] }

/-- `agenda_item.tags.clear()` followed by appending the classifier's tags
    (guelph.py:336-340). -/
def relinkTags (db : DB) (itemId : Nat) (tags : List String) : DB :=
  let db := { db with itemTags := db.itemTags.filter (fun p => p.1 ≠ itemId) }
  tags.foldl (relinkStep itemId) db

/-- The meeting upsert (guelph.py:267-292), keyed on `external_id`;
    returns the updated database and the meeting id (`db.flush()` makes
    the id of a new row available). -/
def upsertMeeting (db : DB) (muniId : Nat) (external_id : String) (url : Url)
    (header : MeetingHeader) (meeting_type : String) : DB × Nat :=
  match db.meetings.find? (fun m => m.external_id = external_id) with
  | some m =>
    ({ db with
        meetings := updateFirst (fun r => r.external_id = external_id)
          (fun r => { r with
              title := header.title, mtype := meeting_type,
              start_datetime := header.start_datetime,
              end_datetime := header.end_datetime,
              location := header.location, agenda_url := url.raw,
              livestream_url := GUELPH_LIVESTREAM_URL })
          db.meetings },
     m.id)
  | none =>
    let row : MeetingRow :=
      { id := db.nextMeetingId, municipality_id := muniId, external_id := external_id,
        title := header.title, mtype := meeting_type,
        start_datetime := header.start_datetime, end_datetime := header.end_datetime,
        location := header.location, status := "scheduled", agenda_url := url.raw,
        livestream_url := GUELPH_LIVESTREAM_URL }
    ({ db with meetings := db.meetings ++ [row], nextMeetingId := db.nextMeetingId + 1 },
     row.id)

/-- The 5/15-minute increment chosen per item section (guelph.py:302-307). -/
def sectionIncrement (sectionName : String) : Nat :=
  if sectionName ∈ ["opening", "closed_meeting", "closed_summary", "adjournment", "announcements"]
  then 5 else 15

/-- The agenda-item upsert for one parsed item (guelph.py:309-340), keyed
    on `(meeting_id, item_number)`, followed by the tag relink. -/
def upsertItem (db : DB) (meetingId : Nat) (it : ParsedItem) (summary : String)
    (tags : List String) (offset_minutes : Nat) : DB :=
  match db.items.find? (fun r => r.meeting_id = meetingId ∧ r.item_number = it.item_number) with
  | some row =>
    let db := { db with
      items := updateFirst
        (fun r => r.meeting_id = meetingId ∧ r.item_number = it.item_number)
        (fun r => { r with
            title := it.title, raw_text := it.raw_text, summary_text := summary,
            sectionName := it.sectionName,
            estimated_start_offset_minutes := some (offset_minutes : Int) })
        db.items }
    relinkTags db row.id tags
  | none =>
    let row : ItemRow :=
      { id := db.nextItemId, meeting_id := meetingId, item_number := it.item_number,
        title := it.title, raw_text := it.raw_text, summary_text := summary,
        sectionName := it.sectionName,
        estimated_start_offset_minutes := some (offset_minutes : Int),
        status := "pending" }
    let db := { db with items := db.items ++ [row], nextItemId := db.nextItemId + 1 }
    relinkTags db row.id tags

/-- The `for idx, item_data in enumerate(raw_items)` loop
    (guelph.py:298-342), threading the running `offset_minutes` counter
    that starts at 0 and is incremented *after* the current item's offset
    is assigned. -/
def upsertItems (classify : String → String × List String) (db : DB) (meetingId : Nat) :
    List ParsedItem → Nat → DB
  | [], _ => db
  | it :: rest, offset_minutes =>
    let (summary, tags) := classify it.raw_text
    let db := upsertItem db meetingId it summary tags offset_minutes
    upsertItems classify db meetingId rest (offset_minutes + sectionIncrement it.sectionName)

/-- The estimated offsets assigned to a run's parsed items, in document
    order: the value of `offset_minutes` at each loop iteration of
    guelph.py:298-342. -/
def loopOffsets : List ParsedItem → Nat → List Nat
  | [], _ => []
  | it :: rest, offset_minutes =>
    offset_minutes :: loopOffsets rest (offset_minutes + sectionIncrement it.sectionName)

/-- `ingest_meeting_from_url` (guelph.py:239-352) from the parsed document
    on: resolve the municipality, extract the GUID, parse header and
    items, upsert the meeting, then upsert each item in document order.
    Returns the updated database and the meeting id.  `db.commit()` is the
    identity here (the model applies writes directly; rollback behaviour
    is not claimed). -/
def ingestParsed (dtparse : String → Int) (localize : Int → Int)
    (combineEnd : Int → Int → Int) (classify : String → String × List String)
    (url : Url) (municipality_slug : String) (html : HtmlDoc) (db : DB) :
    Except String (DB × Nat) :=
  match db.munis.find? (fun m => m.slug = municipality_slug) with
  | none => .error ("Municipality '" ++ municipality_slug ++ "' not found in database")
  | some muni =>
    match extractGuid url with
    | .error e => .error e
    | .ok external_id =>
      let header := parseMeetingHeader dtparse localize combineEnd html
      let meeting_type := inferMeetingType header.title
      let (db, meetingId) := upsertMeeting db muni.id external_id url header meeting_type
      let raw_items := parseAgendaItems html.containers
      let db := upsertItems classify db meetingId raw_items 0
      .ok (db, meetingId)

/-! ### Generic lemmas about `updateFirst`, `find?` and `countP` -/

section ListLemmas

variable {α : Type} {β : Type}

theorem updateFirst_map (p : α → Bool) (f : α → α) (g : α → β)
    (hg : ∀ x, p x = true → g (f x) = g x) :
    ∀ l : List α, (updateFirst p f l).map g = l.map g := by
  intro l
  induction l with
  | nil => rfl
  | cons x xs ih =>
    by_cases hx : p x = true
    · simp [updateFirst, hx, hg x hx]
    · simp only [updateFirst, Bool.not_eq_true] at hx
      simp [updateFirst, hx, ih]

theorem find?_updateFirst_disjoint (p q : α → Bool) (f : α → α)
    (hpq : ∀ x, p x = true → q x = false) (hf : ∀ x, q (f x) = q x) :
    ∀ l : List α, (updateFirst p f l).find? q = l.find? q := by
  intro l
  induction l with
  | nil => rfl
  | cons x xs ih =>
    by_cases hx : p x = true
    · have hqx : q x = false := hpq x hx
      have hqfx : q (f x) = false := by rw [hf x]; exact hqx
      simp [updateFirst, hx, List.find?_cons, hqx, hqfx]
    · simp only [Bool.not_eq_true] at hx
      cases hq : q x with
      | true => simp [updateFirst, hx, List.find?_cons, hq]
      | false => simp [updateFirst, hx, List.find?_cons, hq, ih]

theorem find?_updateFirst_self (p : α → Bool) (f : α → α)
    (hf : ∀ x, p (f x) = p x) :
    ∀ l : List α, (updateFirst p f l).find? p = (l.find? p).map f := by
  intro l
  induction l with
  | nil => rfl
  | cons x xs ih =>
    cases hx : p x with
    | true =>
      have hfx : p (f x) = true := by rw [hf x]; exact hx
      simp [updateFirst, hx, List.find?_cons, hfx]
    | false => simp [updateFirst, hx, List.find?_cons, ih]

theorem countP_updateFirst (p q : α → Bool) (f : α → α)
    (hf : ∀ x, q (f x) = q x) :
    ∀ l : List α, (updateFirst p f l).countP q = l.countP q := by
  intro l
  induction l with
  | nil => rfl
  | cons x xs ih =>
    by_cases hx : p x = true
    · simp [updateFirst, hx, List.countP_cons, hf x]
    · simp only [Bool.not_eq_true] at hx
      simp [updateFirst, hx, List.countP_cons, ih]

theorem mem_updateFirst {p : α → Bool} {f : α → α} :
    ∀ {l : List α} {y : α}, y ∈ updateFirst p f l → ∃ z ∈ l, y = z ∨ y = f z := by
  intro l
  induction l with
  | nil => intro y h; simp [updateFirst] at h
  | cons x xs ih =>
    intro y h
    by_cases hx : p x = true
    · simp only [updateFirst, hx, if_pos] at h
      rcases List.mem_cons.mp h with h | h
      · exact ⟨x, List.mem_cons_self x xs, Or.inr h⟩
      · exact ⟨y, List.mem_cons_of_mem x h, Or.inl rfl⟩
    · simp only [Bool.not_eq_true] at hx
      simp only [updateFirst, hx, Bool.false_eq_true, if_neg, not_false_iff] at h
      rcases List.mem_cons.mp h with h | h
      · exact ⟨x, List.mem_cons_self x xs, Or.inl h⟩
      · rcases ih h with ⟨z, hz, hyz⟩
        exact ⟨z, List.mem_cons_of_mem x hz, hyz⟩

theorem pairwise_updateFirst (p : α → Bool) (f : α → α) {R : α → α → Prop}
    (h₁ : ∀ a b, R a b → R (f a) b) (h₂ : ∀ a b, R a b → R a (f b)) :
    ∀ l : List α, l.Pairwise R → (updateFirst p f l).Pairwise R := by
  intro l
  induction l with
  | nil => intro _; exact List.Pairwise.nil
  | cons x xs ih =>
    intro hpw
    rcases List.pairwise_cons.mp hpw with ⟨hhead, htail⟩
    by_cases hx : p x = true
    · simp only [updateFirst, hx, if_pos]
      exact List.pairwise_cons.mpr ⟨fun y hy => h₁ x y (hhead y hy), htail⟩
    · simp only [Bool.not_eq_true] at hx
      simp only [updateFirst, hx, Bool.false_eq_true, if_neg, not_false_iff]
      refine List.pairwise_cons.mpr ⟨?_, ih htail⟩
      intro y hy
      rcases mem_updateFirst hy with ⟨z, hz, h | h⟩
      · subst h; exact hhead _ hz
      · subst h; exact h₂ x _ (hhead _ hz)

theorem countP_le_one_of_pairwise (q : α → Bool) :
    ∀ l : List α, l.Pairwise (fun a b => q a = true → q b = false) → l.countP q ≤ 1 := by
  intro l
  induction l with
  | nil => intro _; simp
  | cons x xs ih =>
    intro hpw
    rcases List.pairwise_cons.mp hpw with ⟨hhead, htail⟩
    by_cases hx : q x = true
    · have : xs.countP q = 0 := List.countP_eq_zero.mpr (fun a ha => by
        simp [hhead a ha hx])
      simp [List.countP_cons, hx, this]
    · simp only [Bool.not_eq_true] at hx
      simp [List.countP_cons, hx, ih htail]

theorem countP_eq_one_of_find? {q : α → Bool} {l : List α}
    (hpw : l.Pairwise (fun a b => q a = true → q b = false))
    {x : α} (h : l.find? q = some x) : l.countP q = 1 := by
  have h1 : l.countP q ≤ 1 := countP_le_one_of_pairwise q l hpw
  have h2 : 0 < l.countP q := by
    rw [List.countP_pos_iff]
    exact ⟨x, List.mem_of_find?_eq_some h, List.find?_some h⟩
  omega

end ListLemmas

/-! ### The fallback classifier, as the spec words it (for claim C6) -/

/-- Spec §4.2: "summary is the first non-empty line longer than 30
    characters, truncated to 300 characters; if no line qualifies, the
    first non-empty line (truncated) is used; if no lines exist, summary
    is empty." -/
def specFallbackSummary (raw_text : String) : String :=
  let lines := ((pySplit raw_text "\n").map pyStrip).filter (fun l => l ≠ "")
  match lines.find? (fun l => 30 < l.length) with
  | some l => pyTake 300 l
  | none =>
    match lines with
    | [] => ""
    | l :: _ => pyTake 300 l

/-- Spec §4.2: "every topic whose keyword list has at least one substring
    match is included, in table-declared order; if no topic matches, the
    single tag `general` is used." -/
def specFallbackTags (raw_text : String) : List String :=
  let text_lower := pyLower raw_text
  let matched :=
    (TAG_KEYWORDS.filter (fun p => p.2.any (fun kw => containsSub text_lower kw))).map (·.1)
  if matched = [] then ["general"] else matched

theorem firstLongLine_eq_find? :
    ∀ lines : List String,
      firstLongLine lines =
        match lines.find? (fun l => 30 < l.length) with
        | some l => pyTake 300 l
        | none => "" := by
  intro lines
  induction lines with
  | nil => rfl
  | cons l rest ih =>
    by_cases h : 30 < l.length
    · rw [firstLongLine, if_pos h, List.find?_cons_of_pos _ (by simpa using h)]
    · rw [firstLongLine, if_neg h, List.find?_cons_of_neg _ (by simpa using h), ih]

theorem foldl_append_filter {α β : Type} (P : α → Bool) (g : α → β) :
    ∀ (l : List α) (acc : List β),
      l.foldl (fun acc p => if P p then acc ++ [g p] else acc) acc
        = acc ++ (l.filter P).map g := by
  intro l
  induction l with
  | nil => intro acc; simp
  | cons x xs ih =>
    intro acc
    by_cases hx : P x = true
    · simp [List.filter_cons, hx, ih]
    · simp only [Bool.not_eq_true] at hx
      simp [List.filter_cons, hx, ih]

theorem pyTake_ne_empty_of_long {l : String} (h : 30 < l.length) :
    pyTake 300 l ≠ "" := by
  intro hEq
  have hd : List.take 300 l.toList = [] := congrArg String.data hEq
  have hlen := congrArg List.length hd
  rw [List.length_take] at hlen
  have hlen2 : l.toList.length = l.length := rfl
  rw [hlen2] at hlen
  simp at hlen
  omega

/-- C6: for every input text, the fallback classifier returns as summary
    the first non-empty line longer than 30 characters truncated to 300
    characters, else the first non-empty line truncated to 300, else the
    empty string; and returns as tags every topic of the fixed keyword
    table with at least one substring match in the lowercased body text,
    in table-declared order, or the single tag `"general"` when no topic
    matches. -/
theorem C6_fallback_classifier (raw_text : String) :
    keywordSummarizeAndTag raw_text =
      (specFallbackSummary raw_text, specFallbackTags raw_text) := by
  unfold keywordSummarizeAndTag specFallbackSummary specFallbackTags
  dsimp only
  rw [firstLongLine_eq_find?,
    foldl_append_filter (fun p => p.2.any (fun kw => containsSub (pyLower raw_text) kw))
      (fun p : String × List String => p.1) TAG_KEYWORDS []]
  cases hf : (((pySplit raw_text "\n").map pyStrip).filter (fun l => l ≠ "")).find?
      (fun l => 30 < l.length) with
  | some l =>
    have hl : 30 < l.length := by simpa using List.find?_some hf
    have hne := pyTake_ne_empty_of_long hl
    simp [hf, hne]
  | none =>
    simp [hf]

/-! ### Claim C3: tags on the primary-parsed path -/

theorem tagsFold_valid (toks : List String) :
    ∀ ts : List String, (∀ t ∈ ts, t ∈ VALID_TAGS) →
      ∀ t ∈ toks.foldl
          (fun ts t0 =>
            let t := spacesToUnderscores (pyLower (pyStrip t0))
            if t ∈ VALID_TAGS then ts ++ [t] else ts)
          ts,
        t ∈ VALID_TAGS := by
  induction toks with
  | nil => intro ts h; exact h
  | cons t0 rest ih =>
    intro ts h
    rw [List.foldl_cons]
    apply ih
    intro t ht
    dsimp only at ht
    by_cases hv : spacesToUnderscores (pyLower (pyStrip t0)) ∈ VALID_TAGS
    · rw [if_pos hv] at ht
      rcases List.mem_append.mp ht with h' | h'
      · exact h t h'
      · rw [List.mem_singleton.mp h']; exact hv
    · rw [if_neg hv] at ht
      exact h t ht

theorem llmParseLine_valid (acc : String × List String) (line : String)
    (h : ∀ t ∈ acc.2, t ∈ VALID_TAGS) :
    ∀ t ∈ (llmParseLine acc line).2, t ∈ VALID_TAGS := by
  unfold llmParseLine
  dsimp only
  split_ifs with h1 h2
  · exact h
  · exact tagsFold_valid _ _ h
  · exact h

theorem llmFold_valid (lines : List String) :
    ∀ acc : String × List String, (∀ t ∈ acc.2, t ∈ VALID_TAGS) →
      ∀ t ∈ (lines.foldl llmParseLine acc).2, t ∈ VALID_TAGS := by
  induction lines with
  | nil => intro acc h; exact h
  | cons line rest ih =>
    intro acc h
    rw [List.foldl_cons]
    exact ih _ (llmParseLine_valid acc line h)

/-- C3 (counterexample): a provider response whose `TAGS:` line lists a
    duplicated tag and four valid tokens is parsed to a four-element,
    non-ordered-unique tag list — the parse neither deduplicates nor caps
    the list at three, refuting the claimed "ordered-unique, between 1 and
    3 elements" bound. -/
theorem C3_counterexample :
    (llmParseResponse "SUMMARY: ok\nTAGS: budget, budget, taxes, zoning").2
        = ["budget", "budget", "taxes", "zoning"] ∧
      3 < (llmParseResponse "SUMMARY: ok\nTAGS: budget, budget, taxes, zoning").2.length ∧
      ¬ (llmParseResponse "SUMMARY: ok\nTAGS: budget, budget, taxes, zoning").2.Nodup := by
  refine ⟨by decide, by decide, by decide⟩

/-- C3 (amended): for every provider response parsed on the primary (LLM)
    path, the returned tag list is non-empty and either is exactly
    `["general"]` (when no valid tags remain after filtering) or contains
    only tags from the fixed topic vocabulary, in response order; the list
    is neither deduplicated nor capped at three elements. -/
theorem C3_llm_tags_valid (text : String) :
    (llmParseResponse text).2 ≠ [] ∧
      ((llmParseResponse text).2 = ["general"] ∨
        ∀ t ∈ (llmParseResponse text).2, t ∈ VALID_TAGS) := by
  unfold llmParseResponse
  dsimp only
  by_cases h : ((pySplit (pyStrip text) "\n").foldl llmParseLine ("", [])).2 = []
  · rw [if_pos h]
    exact ⟨by simp, Or.inl rfl⟩
  · rw [if_neg h]
    exact ⟨h, Or.inr (llmFold_valid _ _ (by simp))⟩

/-! ### Claims C1 and C10: the now/next estimator -/

/-- A concrete agenda-item row for counterexamples and witnesses. -/
def demoItem (n : String) (off : Int) : ItemRow :=
  { id := 0, meeting_id := 1, item_number := n, title := "t", raw_text := "",
    summary_text := "", sectionName := "other",
    estimated_start_offset_minutes := some off, status := "pending" }

/-- C1 (counterexample): on a meeting with a null start time and two
    items, `_estimate_current_next` returns the first item as **current**
    and the second as next — not `current = null` with the first item as
    next, as the claim states. -/
theorem C1_counterexample :
    estimateCurrentNext none 0 [demoItem "1" 0, demoItem "2.1" 15]
        = (some (demoItem "1" 0), some (demoItem "2.1" 15)) ∧
      (estimateCurrentNext none 0 [demoItem "1" 0, demoItem "2.1" 15]).1 ≠ none := by
  refine ⟨by decide, by decide⟩

/-- C1 (amended): for every meeting whose start time is null and whose
    agenda item list is non-empty, `_estimate_current_next` returns the
    **first** item in item_number order as *current* and the item after it
    (if any) as *next*. -/
theorem C1_no_start_first_is_current (now : Int) (items : List ItemRow)
    (hne : items ≠ []) :
    estimateCurrentNext none now items =
      ((sortItems items).head?, (sortItems items).tail.head?) := by
  unfold estimateCurrentNext
  cases h : sortItems items with
  | nil =>
    exfalso
    apply hne
    have hperm : ([] : List ItemRow).Perm items := by
      have hp := List.perm_insertionSort itemLe items
      have h' : List.insertionSort itemLe items = [] := h
      rw [h'] at hp
      exact hp
    exact (hperm.symm).eq_nil
  | cons first rest =>
    rfl

theorem C1_no_start_first_is_current_witness :
    estimateCurrentNext none 0 [demoItem "2.1" 15, demoItem "1" 0] =
      ((sortItems [demoItem "2.1" 15, demoItem "1" 0]).head?,
        (sortItems [demoItem "2.1" 15, demoItem "1" 0]).tail.head?) :=
  C1_no_start_first_is_current 0 [demoItem "2.1" 15, demoItem "1" 0] (by decide)

/-- C10: the estimator walks items in plain lexicographic (Python string)
    order of `item_number`: in the sorted list an item numbered `"10.1"`
    always comes strictly before an item numbered `"2.1"`; consequently the
    document-order offsets encountered along the walk need not be
    non-decreasing, witnessed by a meeting whose items `"2.1"` (offset 0)
    and `"10.1"` (offset 15) are walked in the order `[15, 0]`. -/
theorem C10_lexicographic_walk :
    (∀ (items : List ItemRow) (i j : Fin (sortItems items).length),
        ((sortItems items).get i).item_number = "10.1" →
        ((sortItems items).get j).item_number = "2.1" →
        (i : Nat) < (j : Nat)) ∧
      ¬ List.Chain' (· ≤ ·)
        ((sortItems [demoItem "2.1" 0, demoItem "10.1" 15]).map
          (fun r => r.estimated_start_offset_minutes.getD 0)) := by
  constructor
  · intro items i j hi hj
    have hs : List.Sorted itemLe (sortItems items) :=
      List.sorted_insertionSort itemLe items
    rcases lt_trichotomy (i : Nat) (j : Nat) with h | h | h
    · exact h
    · exfalso
      have hij : i = j := Fin.ext h
      rw [hij, hj] at hi
      exact absurd hi (by decide)
    · exfalso
      have hrel : itemLe ((sortItems items).get j) ((sortItems items).get i) :=
        hs.rel_get_of_lt h
      unfold itemLe at hrel
      rw [hi, hj] at hrel
      exact absurd hrel (by decide)
  · have hmap : (sortItems [demoItem "2.1" 0, demoItem "10.1" 15]).map
        (fun r => r.estimated_start_offset_minutes.getD 0) = [15, 0] := by decide
    rw [hmap]
    intro hch
    have h15 := (List.chain'_cons.mp hch).1
    omega

theorem C10_lexicographic_walk_witness : (0 : Nat) < (1 : Nat) := by
  exact C10_lexicographic_walk.1 [demoItem "2.1" 0, demoItem "10.1" 15]
    ⟨0, by decide⟩ ⟨1, by decide⟩ (by decide) (by decide)

/-! ### Claim C7: closed-session exclusion -/

theorem filter_open_drop_closed :
    ∀ l : List RawContainer,
      (∀ c ∈ l, isClosedSession c = true → "AgendaItemCounter" ∉ c.counterClasses) →
      l.filter (fun c => "AgendaItemCounter" ∈ c.counterClasses)
        = (l.filter (fun c => ¬ isClosedSession c)).filter
            (fun c => "AgendaItemCounter" ∈ c.counterClasses) := by
  intro l
  induction l with
  | nil => intro _; rfl
  | cons c rest ih =>
    intro hexcl
    have ihr := ih (fun x hx h => hexcl x (List.mem_cons_of_mem c hx) h)
    cases hcl : isClosedSession c with
    | true =>
      have hno : "AgendaItemCounter" ∉ c.counterClasses :=
        hexcl c (List.mem_cons_self c rest) hcl
      simp [List.filter_cons, hcl, hno, ihr]
    | false =>
      by_cases hopen : "AgendaItemCounter" ∈ c.counterClasses
      · simp [List.filter_cons, hcl, hopen, ihr]
      · simp [List.filter_cons, hcl, hopen, ihr]

/-- C7: for every input document in which the closed-session marker class
    is the counter's distinct marker (a closed counter does not also carry
    the open `AgendaItemCounter` marker, per the source-document contract),
    dropping every closed-session container leaves the parsed item list
    unchanged — no closed-session container ever contributes an item,
    regardless of how many such containers the document contains. -/
theorem C7_closed_session_excluded (containers : List RawContainer)
    (hexcl : ∀ c ∈ containers,
      isClosedSession c = true → "AgendaItemCounter" ∉ c.counterClasses) :
    parseAgendaItems containers =
      parseAgendaItems (containers.filter (fun c => ¬ isClosedSession c)) := by
  unfold parseAgendaItems
  rw [filter_open_drop_closed containers hexcl]

/-- An open (public) item container used in witnesses. -/
def demoOpenC : RawContainer :=
  { counterClasses := ["AgendaItemCounter"], counterText := "6.1.",
    hasItemParent := true, titleText := "Budget amendment",
    hasContainerParent := true, motionTexts := ["That council approve."],
    descTexts := ["Details."] }

/-- A closed-session item container used in witnesses. -/
def demoClosedC : RawContainer :=
  { counterClasses := ["ClosedAgendaItemCounter"], counterText := "2.1.",
    hasItemParent := true, titleText := "Litigation update",
    hasContainerParent := true, motionTexts := [], descTexts := [] }

theorem C7_closed_session_excluded_witness :
    parseAgendaItems [demoClosedC, demoOpenC, demoClosedC] =
      parseAgendaItems ([demoClosedC, demoOpenC, demoClosedC].filter
        (fun c => ¬ isClosedSession c)) :=
  C7_closed_session_excluded [demoClosedC, demoOpenC, demoClosedC] (by decide)

/-! ### Claim C9: title boilerplate stripping -/

/-- A header-only document with the given heading text. -/
def demoTitleDoc (t : String) : HtmlDoc :=
  { headerTitleText := some t, startAttr := none, endAttr := none,
    locationText := none, address1Text := none, containers := [] }

/-- C9 (counterexample): on the heading text `"Agenda Committee"` the code
    strips the non-trailing occurrence of `"Agenda"` and returns
    `"Committee"`, whereas the claim says non-trailing occurrences are
    left unchanged (so the title would stay `"Agenda Committee"`). -/
theorem C9_counterexample :
    (parseMeetingHeader (fun _ => 0) (fun x => x) (fun s _ => s)
        (demoTitleDoc "Agenda Committee")).title = "Committee" ∧
      specTitleTrailingOnly "Agenda Committee" = "Agenda Committee" ∧
      ("Committee" : String) ≠ "Agenda Committee" :=
  ⟨by decide, by decide, by decide⟩

/-- C9 (amended): the extracted meeting title equals the heading element's
    text with *every* leftmost non-overlapping occurrence of
    `"Meeting Agenda"` removed, then every remaining occurrence of
    `"Agenda"` removed, then surrounding whitespace stripped — non-trailing
    occurrences are removed too, not left unchanged. -/
theorem C9_title_removes_all_occurrences (dtparse : String → Int)
    (localize : Int → Int) (combineEnd : Int → Int → Int) (doc : HtmlDoc)
    (raw : String) (h : doc.headerTitleText = some raw) :
    (parseMeetingHeader dtparse localize combineEnd doc).title =
      pyStrip (removeAll "Agenda" (removeAll "Meeting Agenda" raw)) := by
  unfold parseMeetingHeader
  rw [h]
  rfl

theorem C9_title_removes_all_occurrences_witness :
    (parseMeetingHeader (fun _ => 0) (fun x => x) (fun s _ => s)
        (demoTitleDoc "City Council Meeting Agenda")).title =
      pyStrip (removeAll "Agenda" (removeAll "Meeting Agenda"
        "City Council Meeting Agenda")) :=
  C9_title_removes_all_occurrences (fun _ => 0) (fun x => x) (fun s _ => s)
    (demoTitleDoc "City Council Meeting Agenda") "City Council Meeting Agenda" rfl

/-! ### Claim C2: missing start time -/

/-- A bootstrap database holding only the seeded municipality. -/
def demoDb0 : DB :=
  { munis := [{ id := 1, slug := "guelph", timezone := "America/Toronto" }],
    meetings := [], items := [], tags := [], itemTags := [],
    nextMeetingId := 1, nextItemId := 1, nextTagId := 1 }

/-- A concrete eScribe URL (already query-parsed). -/
def demoUrl : Url :=
  { raw := "https://pub-guelph.escribemeetings.com/Meeting.aspx?Id=abc-123",
    params := [("Id", "abc-123")] }

/-- An agenda document whose header lacks the machine-readable start-time
    attribute but has the other header fields. -/
def demoNoStartDoc : HtmlDoc :=
  { headerTitleText := some "City Council Meeting Agenda", startAttr := none,
    endAttr := some "22:00", locationText := some "Council Chambers",
    address1Text := none, containers := [] }

/-- C2: the extractor nulls the missing start-time field and continues (the
    title and location are still extracted, the meeting is produced with
    `start_datetime = none`) — but the produced row violates the
    `nullable=False` (NOT NULL) constraint that `models.py:68` and the
    migration declare on `meeting.start_datetime`, so the claimed "the
    meeting is persisted with a null start time" is exactly what the
    schema rejects: the flush raises an integrity error instead of
    persisting.  The code, not the claim, is at fault: every downstream
    consumer (the serializers and the now/next estimator) explicitly
    handles a null start. -/
theorem C2_null_start_violates_schema :
    (parseMeetingHeader (fun _ => 0) (fun x => x) (fun s _ => s)
        demoNoStartDoc).start_datetime = none ∧
      (parseMeetingHeader (fun _ => 0) (fun x => x) (fun s _ => s)
        demoNoStartDoc).title = "City Council" ∧
      (parseMeetingHeader (fun _ => 0) (fun x => x) (fun s _ => s)
        demoNoStartDoc).location = some "Council Chambers" ∧
      ((ingestParsed (fun _ => 0) (fun x => x) (fun s _ => s)
          (fun _ => ("", ["general"])) demoUrl "guelph" demoNoStartDoc demoDb0).toOption.map
        (fun p => p.1.meetings.map
          (fun m => (m.external_id, m.start_datetime, meetingStartNotNull m))))
        = some [("abc-123", none, false)] :=
  ⟨by decide, by decide, by decide, by decide⟩

/-! ### Frame lemmas: which tables each operation leaves untouched -/

theorem getOrCreateTag_frame (db : DB) (n : String) :
    (getOrCreateTag db n).1.munis = db.munis ∧
      (getOrCreateTag db n).1.meetings = db.meetings ∧
      (getOrCreateTag db n).1.items = db.items ∧
      (getOrCreateTag db n).1.itemTags = db.itemTags ∧
      (getOrCreateTag db n).1.nextMeetingId = db.nextMeetingId ∧
      (getOrCreateTag db n).1.nextItemId = db.nextItemId := by
  unfold getOrCreateTag
  split <;> exact ⟨rfl, rfl, rfl, rfl, rfl, rfl⟩

theorem relinkStep_frame (i : Nat) (db : DB) (n : String) :
    (relinkStep i db n).munis = db.munis ∧
      (relinkStep i db n).meetings = db.meetings ∧
      (relinkStep i db n).items = db.items ∧
      (relinkStep i db n).nextMeetingId = db.nextMeetingId ∧
      (relinkStep i db n).nextItemId = db.nextItemId := by
  obtain ⟨h1, h2, h3, _, h5, h6⟩ := getOrCreateTag_frame db n
  exact ⟨h1, h2, h3, h5, h6⟩

theorem relinkFold_frame (i : Nat) :
    ∀ (ts : List String) (db : DB),
      (ts.foldl (relinkStep i) db).munis = db.munis ∧
        (ts.foldl (relinkStep i) db).meetings = db.meetings ∧
        (ts.foldl (relinkStep i) db).items = db.items ∧
        (ts.foldl (relinkStep i) db).nextMeetingId = db.nextMeetingId ∧
        (ts.foldl (relinkStep i) db).nextItemId = db.nextItemId := by
  intro ts
  induction ts with
  | nil => intro db; exact ⟨rfl, rfl, rfl, rfl, rfl⟩
  | cons n rest ih =>
    intro db
    rw [List.foldl_cons]
    obtain ⟨f1, f2, f3, f4, f5⟩ := relinkStep_frame i db n
    obtain ⟨g1, g2, g3, g4, g5⟩ := ih (relinkStep i db n)
    exact ⟨g1.trans f1, g2.trans f2, g3.trans f3, g4.trans f4, g5.trans f5⟩

theorem relinkTags_frame (db : DB) (i : Nat) (ts : List String) :
    (relinkTags db i ts).munis = db.munis ∧
      (relinkTags db i ts).meetings = db.meetings ∧
      (relinkTags db i ts).items = db.items ∧
      (relinkTags db i ts).nextMeetingId = db.nextMeetingId ∧
      (relinkTags db i ts).nextItemId = db.nextItemId :=
  relinkFold_frame i ts _

theorem upsertItem_frame (db : DB) (mid : Nat) (it : ParsedItem) (summary : String)
    (tags : List String) (off : Nat) :
    (upsertItem db mid it summary tags off).munis = db.munis ∧
      (upsertItem db mid it summary tags off).meetings = db.meetings ∧
      (upsertItem db mid it summary tags off).nextMeetingId = db.nextMeetingId := by
  unfold upsertItem
  split
  · obtain ⟨h1, h2, _, _, _⟩ := relinkTags_frame _ _ tags
    exact ⟨h1, h2, (relinkTags_frame _ _ tags).2.2.2.1⟩
  · obtain ⟨h1, h2, _, _, _⟩ := relinkTags_frame _ _ tags
    exact ⟨h1, h2, (relinkTags_frame _ _ tags).2.2.2.1⟩

theorem upsertItems_frame (classify : String → String × List String) (mid : Nat) :
    ∀ (items : List ParsedItem) (db : DB) (off : Nat),
      (upsertItems classify db mid items off).munis = db.munis ∧
        (upsertItems classify db mid items off).meetings = db.meetings ∧
        (upsertItems classify db mid items off).nextMeetingId = db.nextMeetingId := by
  intro items
  induction items with
  | nil => intro db off; exact ⟨rfl, rfl, rfl⟩
  | cons it rest ih =>
    intro db off
    rw [upsertItems]
    obtain ⟨f1, f2, f3⟩ := upsertItem_frame db mid it (classify it.raw_text).1
      (classify it.raw_text).2 off
    obtain ⟨g1, g2, g3⟩ := ih (upsertItem db mid it (classify it.raw_text).1
      (classify it.raw_text).2 off) (off + sectionIncrement it.sectionName)
    exact ⟨g1.trans f1, g2.trans f2, g3.trans f3⟩

theorem upsertMeeting_frame (db : DB) (muniId : Nat) (eid : String) (url : Url)
    (header : MeetingHeader) (mtype : String) :
    (upsertMeeting db muniId eid url header mtype).1.munis = db.munis ∧
      (upsertMeeting db muniId eid url header mtype).1.items = db.items ∧
      (upsertMeeting db muniId eid url header mtype).1.tags = db.tags ∧
      (upsertMeeting db muniId eid url header mtype).1.itemTags = db.itemTags ∧
      (upsertMeeting db muniId eid url header mtype).1.nextItemId = db.nextItemId ∧
      (upsertMeeting db muniId eid url header mtype).1.nextTagId = db.nextTagId := by
  unfold upsertMeeting
  split <;> exact ⟨rfl, rfl, rfl, rfl, rfl, rfl⟩

/-! ### Claim C5: the estimated-offset policy -/

theorem relinkTags_items (db : DB) (i : Nat) (ts : List String) :
    (relinkTags db i ts).items = db.items :=
  (relinkTags_frame db i ts).2.2.1

theorem loopOffsets_getD_succ :
    ∀ (items : List ParsedItem) (off i : Nat), i + 1 < items.length →
      (loopOffsets items off).getD (i + 1) 0 =
        (loopOffsets items off).getD i 0
          + sectionIncrement ((items.getD i default).sectionName) := by
  intro items
  induction items with
  | nil => intro off i h; simp at h
  | cons it rest ih =>
    intro off i h
    cases i with
    | zero =>
      cases rest with
      | nil => simp at h
      | cons it2 rest2 => rfl
    | succ i' =>
      have h' : i' + 1 < rest.length := by
        simp only [List.length_cons] at h
        omega
      have hx := ih (off + sectionIncrement it.sectionName) i' h'
      simpa [loopOffsets] using hx

theorem loopOffsets_chain :
    ∀ (items : List ParsedItem) (off : Nat),
      List.Chain' (· ≤ ·) (loopOffsets items off) := by
  intro items
  induction items with
  | nil => intro off; simp [loopOffsets]
  | cons it rest ih =>
    intro off
    cases rest with
    | nil => simp [loopOffsets]
    | cons it2 rest2 =>
      simp only [loopOffsets]
      refine List.chain'_cons.mpr ⟨Nat.le_add_right off _, ?_⟩
      have hx := ih (off + sectionIncrement it.sectionName)
      simpa only [loopOffsets] using hx

theorem upsertItem_find_self (db : DB) (mid : Nat) (it : ParsedItem) (s : String)
    (tg : List String) (off : Nat) :
    ∃ r, (upsertItem db mid it s tg off).items.find?
        (fun r => r.meeting_id = mid ∧ r.item_number = it.item_number) = some r ∧
      r.estimated_start_offset_minutes = some (off : Int) := by
  unfold upsertItem
  split
  next row hrow =>
    rw [relinkTags_items]
    dsimp only
    refine ⟨({ row with
        title := it.title,
        raw_text := it.raw_text,
        summary_text := s,
        sectionName := it.sectionName,
        estimated_start_offset_minutes := some (off : Int) } : ItemRow), ?_, rfl⟩
    rw [find?_updateFirst_self
        (fun r => decide (r.meeting_id = mid ∧ r.item_number = it.item_number))
        (fun r => ({ r with
          title := it.title,
          raw_text := it.raw_text,
          summary_text := s,
          sectionName := it.sectionName,
          estimated_start_offset_minutes := some (off : Int) } : ItemRow))
        (fun x => rfl), hrow]
    rfl
  next hnone =>
    rw [relinkTags_items]
    dsimp only
    refine ⟨({
        id := db.nextItemId,
        meeting_id := mid,
        item_number := it.item_number,
        title := it.title,
        raw_text := it.raw_text,
        summary_text := s,
        sectionName := it.sectionName,
        estimated_start_offset_minutes := some (off : Int),
        status := "pending" } : ItemRow), ?_, rfl⟩
    rw [List.find?_append, hnone]
    show Option.or none _ = _
    rw [Option.none_or]
    simp

theorem upsertItem_find_other (db : DB) (mid : Nat) (it : ParsedItem) (s : String)
    (tg : List String) (off : Nat) (n : String) (hne : n ≠ it.item_number) :
    (upsertItem db mid it s tg off).items.find?
        (fun r => r.meeting_id = mid ∧ r.item_number = n)
      = db.items.find? (fun r => r.meeting_id = mid ∧ r.item_number = n) := by
  unfold upsertItem
  split
  next row hrow =>
    rw [relinkTags_items]
    dsimp only
    apply find?_updateFirst_disjoint
    · intro x hx
      simp only [decide_eq_true_eq] at hx
      simp only [decide_eq_false_iff_not]
      rintro ⟨_, h2⟩
      exact hne (h2.symm.trans hx.2)
    · intro x; rfl
  next hnone =>
    rw [relinkTags_items]
    dsimp only
    rw [List.find?_append]
    have hnew : List.find? (fun r => decide (r.meeting_id = mid ∧ r.item_number = n))
        ([{ id := db.nextItemId, meeting_id := mid, item_number := it.item_number,
            title := it.title, raw_text := it.raw_text, summary_text := s,
            sectionName := it.sectionName,
            estimated_start_offset_minutes := some ((off : Nat) : Int),
            status := "pending" }] : List ItemRow) = none := by
      simp [Ne.symm hne]
    rw [hnew, Option.or_none]

theorem upsertItems_find_frozen (classify : String → String × List String) (mid : Nat) :
    ∀ (items : List ParsedItem) (db : DB) (off : Nat) (n : String),
      (∀ it ∈ items, it.item_number ≠ n) →
      (upsertItems classify db mid items off).items.find?
          (fun r => r.meeting_id = mid ∧ r.item_number = n)
        = db.items.find? (fun r => r.meeting_id = mid ∧ r.item_number = n) := by
  intro items
  induction items with
  | nil => intro db off n _; rfl
  | cons it rest ih =>
    intro db off n hne
    rw [upsertItems]
    rw [ih _ _ n (fun x hx => hne x (List.mem_cons_of_mem it hx))]
    exact upsertItem_find_other db mid it _ _ off n
      (fun h => hne it (List.mem_cons_self it rest) h.symm)

theorem upsertItems_offsets (classify : String → String × List String) (mid : Nat) :
    ∀ (items : List ParsedItem) (db : DB) (off : Nat),
      (items.map (fun it => it.item_number)).Nodup →
      ∀ i, i < items.length →
      ∃ r, (upsertItems classify db mid items off).items.find?
          (fun r => r.meeting_id = mid ∧
            r.item_number = (items.getD i default).item_number) = some r ∧
        r.estimated_start_offset_minutes
          = some (((loopOffsets items off).getD i 0 : Nat) : Int) := by
  intro items
  induction items with
  | nil => intro db off _ i hi; simp at hi
  | cons it rest ih =>
    intro db off hnd i hi
    rw [upsertItems]
    have hnd0 : it.item_number ∉ rest.map (fun it => it.item_number) ∧
        (rest.map (fun it => it.item_number)).Nodup := by
      rw [List.map_cons] at hnd
      exact List.nodup_cons.mp hnd
    cases i with
    | zero =>
      have hmem : ∀ it' ∈ rest, it'.item_number ≠ it.item_number := by
        intro it' hit' heq
        exact hnd0.1 (by
          rw [← heq]
          exact List.mem_map_of_mem (fun x => x.item_number) hit')
      simp only [List.getD_cons_zero]
      rw [upsertItems_find_frozen classify mid rest _ _ it.item_number hmem]
      exact upsertItem_find_self db mid it _ _ off
    | succ i' =>
      have hi' : i' < rest.length := by
        simp only [List.length_cons] at hi
        omega
      have hx := ih (upsertItem db mid it (classify it.raw_text).1
        (classify it.raw_text).2 off) (off + sectionIncrement it.sectionName) hnd0.2 i' hi'
      simpa [loopOffsets, List.getD_cons_succ] using hx

/-- C5: in every ingestion run the offset counter starts at 0, so the
    first parsed item is assigned estimated offset 0; each later item's
    offset equals the previous item's offset plus the previous item's
    section increment (5 minutes for opening, closed_meeting,
    closed_summary, announcements and adjournment, 15 minutes otherwise),
    the increment being added after the current item's offset is assigned;
    the assigned offsets are therefore non-decreasing in document order,
    and the item rows written by the upsert loop carry exactly these
    offsets. -/
theorem C5_offset_policy (items : List ParsedItem) :
    (∀ s : String,
      (s ∈ ["opening", "closed_meeting", "closed_summary", "adjournment",
          "announcements"] → sectionIncrement s = 5) ∧
      (s ∉ ["opening", "closed_meeting", "closed_summary", "adjournment",
          "announcements"] → sectionIncrement s = 15)) ∧
    (items ≠ [] → (loopOffsets items 0).getD 0 0 = 0) ∧
    (∀ i, i + 1 < items.length →
      (loopOffsets items 0).getD (i + 1) 0 =
        (loopOffsets items 0).getD i 0
          + sectionIncrement ((items.getD i default).sectionName)) ∧
    List.Chain' (· ≤ ·) (loopOffsets items 0) ∧
    (∀ (classify : String → String × List String) (db : DB) (mid : Nat),
      (items.map (fun it => it.item_number)).Nodup →
      ∀ i, i < items.length →
      ∃ r, (upsertItems classify db mid items 0).items.find?
          (fun r => r.meeting_id = mid ∧
            r.item_number = (items.getD i default).item_number) = some r ∧
        r.estimated_start_offset_minutes
          = some (((loopOffsets items 0).getD i 0 : Nat) : Int)) := by
  refine ⟨?_, ?_, ?_, loopOffsets_chain items 0, ?_⟩
  · intro s
    constructor
    · intro h
      simp [sectionIncrement, h]
    · intro h
      simp [sectionIncrement, h]
  · intro hne
    cases items with
    | nil => exact absurd rfl hne
    | cons it rest => rfl
  · intro i hi
    exact loopOffsets_getD_succ items 0 i hi
  · intro classify db mid hnd i hi
    exact upsertItems_offsets classify mid items db 0 hnd i hi

/-- A concrete parsed opening item. -/
def demoParsedA : ParsedItem :=
  { item_number := "1", title := "Opening", raw_text := "1 Opening",
    sectionName := "opening" }

/-- A concrete parsed consent item. -/
def demoParsedB : ParsedItem :=
  { item_number := "6.1", title := "Budget", raw_text := "6.1 Budget",
    sectionName := "consent" }

theorem C5_offset_policy_witness :
    sectionIncrement "opening" = 5 ∧
      (loopOffsets [demoParsedA, demoParsedB] 0).getD 0 0 = 0 ∧
      (loopOffsets [demoParsedA, demoParsedB] 0).getD 1 0 =
        (loopOffsets [demoParsedA, demoParsedB] 0).getD 0 0
          + sectionIncrement (([demoParsedA, demoParsedB].getD 0 default).sectionName) ∧
      (∃ r, (upsertItems keywordSummarizeAndTag demoDb0 1
            [demoParsedA, demoParsedB] 0).items.find?
          (fun r => r.meeting_id = 1 ∧
            r.item_number = ([demoParsedA, demoParsedB].getD 1 default).item_number)
          = some r ∧
        r.estimated_start_offset_minutes
          = some (((loopOffsets [demoParsedA, demoParsedB] 0).getD 1 0 : Nat) : Int)) := by
  obtain ⟨h1, h2, h3, _, h5⟩ := C5_offset_policy [demoParsedA, demoParsedB]
  exact ⟨(h1 "opening").1 (by decide), h2 (by decide), h3 0 (by decide),
    h5 keywordSummarizeAndTag demoDb0 1 (by decide) 1 (by decide)⟩

/-! ### Database invariants

The uniqueness constraints the schema enforces (`external_id` unique,
`(meeting_id, item_number)` unique, tag `name`/`id` unique) together with
freshness of the autoincrement counters. -/

abbrev DBInv (db : DB) : Prop :=
  db.meetings.Pairwise (fun a b => a.external_id ≠ b.external_id) ∧
    (∀ m ∈ db.meetings, m.id < db.nextMeetingId) ∧
    db.items.Pairwise
      (fun a b => a.meeting_id ≠ b.meeting_id ∨ a.item_number ≠ b.item_number) ∧
    (∀ r ∈ db.items, r.id < db.nextItemId) ∧
    (db.tags.map (fun t => t.id)).Nodup ∧
    (∀ t ∈ db.tags, t.id < db.nextTagId)

/-- In a tag table with distinct ids, looking a member row up by its id
    finds exactly that row. -/
theorem find?_tag_id_of_nodup :
    ∀ {l : List TagRow}, (l.map (fun t => t.id)).Nodup →
      ∀ {t : TagRow}, t ∈ l → l.find? (fun x => x.id = t.id) = some t := by
  intro l
  induction l with
  | nil => intro _ t ht; cases ht
  | cons h rest ih =>
    intro hnd t ht
    rw [List.map_cons] at hnd
    obtain ⟨hnotin, hnd'⟩ := List.nodup_cons.mp hnd
    rcases List.mem_cons.mp ht with heq | hmem
    · subst heq
      rw [List.find?_cons_of_pos _ (by simp)]
    · have hne : h.id ≠ t.id := fun he =>
        hnotin (he ▸ List.mem_map_of_mem (fun t => t.id) hmem)
      rw [List.find?_cons_of_neg _ (by simp [hne]), ih hnd' hmem]

theorem getOrCreateTag_spec (db : DB) (n : String)
    (hnd : (db.tags.map (fun t => t.id)).Nodup)
    (hb : ∀ t ∈ db.tags, t.id < db.nextTagId) :
    ((getOrCreateTag db n).1.tags.map (fun t => t.id)).Nodup ∧
      (∀ t ∈ (getOrCreateTag db n).1.tags, t.id < (getOrCreateTag db n).1.nextTagId) ∧
      (getOrCreateTag db n).1.tags.find?
          (fun x => x.id = (getOrCreateTag db n).2)
        = some { id := (getOrCreateTag db n).2, name := n } ∧
      (∀ tid t, db.tags.find? (fun x => x.id = tid) = some t →
        (getOrCreateTag db n).1.tags.find? (fun x => x.id = tid) = some t) := by
  unfold getOrCreateTag
  split
  next t ht =>
    refine ⟨hnd, hb, ?_, fun _ _ h => h⟩
    have hmem : t ∈ db.tags := List.mem_of_find?_eq_some ht
    have hname : t.name = n := by
      have := List.find?_some ht
      simpa using this
    have := find?_tag_id_of_nodup hnd hmem
    rw [this]
    cases t
    simp only at hname
    rw [hname]
  next hnone =>
    have hfresh : ∀ t ∈ db.tags, t.id ≠ db.nextTagId :=
      fun t ht heq => absurd (heq ▸ hb t ht) (lt_irrefl _)
    refine ⟨?_, ?_, ?_, ?_⟩
    · rw [List.map_append]
      rw [List.nodup_append]
      refine ⟨hnd, List.nodup_singleton _, ?_⟩
      intro a ha hb'
      rcases List.mem_map.mp ha with ⟨t, ht, rfl⟩
      rcases List.mem_singleton.mp (by simpa using hb') with h
      exact hfresh t ht h
    · intro t ht
      rcases List.mem_append.mp ht with h | h
      · exact Nat.lt_succ_of_lt (hb t h)
      · rw [List.mem_singleton.mp h]
        exact Nat.lt_succ_self _
    · rw [List.find?_append]
      have h1 : db.tags.find? (fun x => x.id = db.nextTagId) = none :=
        List.find?_eq_none.mpr (fun t ht => by simp [hfresh t ht])
      rw [h1]
      show Option.or none _ = _
      rw [Option.none_or]
      simp
    · intro tid t h
      rw [List.find?_append, h]
      rfl

/-- The tag names associated with an agenda item, in association order. -/
def itemTagNames (db : DB) (itemId : Nat) : List String :=
  (db.itemTags.filter (fun p => p.1 = itemId)).filterMap
    (fun p => (db.tags.find? (fun t => t.id = p.2)).map (fun t => t.name))

theorem relinkFold_spec (i : Nat) :
    ∀ (ts : List String) (db : DB),
      (db.tags.map (fun t => t.id)).Nodup →
      (∀ t ∈ db.tags, t.id < db.nextTagId) →
      ∃ newPairs : List (Nat × Nat),
        (ts.foldl (relinkStep i) db).itemTags = db.itemTags ++ newPairs ∧
          (∀ p ∈ newPairs, p.1 = i) ∧
          newPairs.filterMap (fun p =>
            ((ts.foldl (relinkStep i) db).tags.find? (fun t => t.id = p.2)).map
              (fun t => t.name)) = ts ∧
          (∀ tid t, db.tags.find? (fun x => x.id = tid) = some t →
            (ts.foldl (relinkStep i) db).tags.find? (fun x => x.id = tid) = some t) := by
  intro ts
  induction ts with
  | nil =>
    intro db _ _
    exact ⟨[], by simp, by simp, by simp, fun _ _ h => h⟩
  | cons n rest ih =>
    intro db hnd hb
    obtain ⟨snd, sb, sfind, sstab⟩ := getOrCreateTag_spec db n hnd hb
    have hdb2it : (relinkStep i db n).itemTags
        = db.itemTags ++ [(i, (getOrCreateTag db n).2)] := by
      have hf := (getOrCreateTag_frame db n).2.2.2.1
      show (getOrCreateTag db n).1.itemTags ++ _ = _
      rw [hf]
    obtain ⟨ps, hit, hall, hnames, hstab⟩ := ih (relinkStep i db n) snd sb
    refine ⟨(i, (getOrCreateTag db n).2) :: ps, ?_, ?_, ?_, ?_⟩
    · rw [List.foldl_cons, hit, hdb2it, List.append_assoc, List.singleton_append]
    · intro p hp
      rcases List.mem_cons.mp hp with heq | hmem
      · rw [heq]
      · exact hall p hmem
    · rw [List.foldl_cons, List.filterMap_cons]
      have hhead : (rest.foldl (relinkStep i) (relinkStep i db n)).tags.find?
          (fun t => t.id = (getOrCreateTag db n).2)
          = some { id := (getOrCreateTag db n).2, name := n } :=
        hstab _ _ sfind
      rw [hhead]
      simp only [Option.map_some']
      rw [hnames]
    · intro tid t h
      exact hstab tid t (sstab tid t h)

theorem getOrCreateTag_inv (db : DB) (n : String) (h : DBInv db) :
    DBInv (getOrCreateTag db n).1 := by
  obtain ⟨m1, m2, i1, i2, t1, t2⟩ := h
  obtain ⟨f1, f2, f3, f4, f5, f6⟩ := getOrCreateTag_frame db n
  obtain ⟨s1, s2, _, _⟩ := getOrCreateTag_spec db n t1 t2
  refine ⟨?_, ?_, ?_, ?_, s1, s2⟩
  · rw [f2]; exact m1
  · rw [f2, f5]; exact m2
  · rw [f3]; exact i1
  · rw [f3, f6]; exact i2

theorem relinkStep_inv (i : Nat) (db : DB) (n : String) (h : DBInv db) :
    DBInv (relinkStep i db n) :=
  getOrCreateTag_inv db n h

theorem relinkFold_inv (i : Nat) :
    ∀ (ts : List String) (db : DB), DBInv db → DBInv (ts.foldl (relinkStep i) db) := by
  intro ts
  induction ts with
  | nil => intro db h; exact h
  | cons n rest ih =>
    intro db h
    rw [List.foldl_cons]
    exact ih _ (relinkStep_inv i db n h)

theorem relinkTags_inv (db : DB) (i : Nat) (ts : List String) (h : DBInv db) :
    DBInv (relinkTags db i ts) :=
  relinkFold_inv i ts _ h

theorem relinkTags_names (db : DB) (i : Nat) (ts : List String)
    (hnd : (db.tags.map (fun t => t.id)).Nodup)
    (hb : ∀ t ∈ db.tags, t.id < db.nextTagId) :
    itemTagNames (relinkTags db i ts) i = ts := by
  unfold relinkTags itemTagNames
  dsimp only
  obtain ⟨ps, hit, hall, hnames, _⟩ := relinkFold_spec i ts
    ({ db with itemTags := db.itemTags.filter (fun p => p.1 ≠ i) }) hnd hb
  rw [hit]
  dsimp only
  rw [List.filter_append]
  have h0 : (db.itemTags.filter (fun p => p.1 ≠ i)).filter (fun p => p.1 = i) = [] := by
    rw [List.filter_eq_nil_iff]
    intro a ha
    have := List.of_mem_filter ha
    simpa using this
  have hps : ps.filter (fun p => p.1 = i) = ps :=
    List.filter_eq_self.mpr (fun p hp => by simp [hall p hp])
  rw [h0, hps, List.nil_append]
  exact hnames

/-- C8: re-running the tag relink of guelph.py:336-340 for an item fully
    replaces its tag associations with the classifier's current output —
    cleared then re-added, never merged — so after outputs `ts1` then
    `ts2`, the item's associations are exactly `ts2`, for every item,
    every pair of outputs and every starting database state satisfying the
    schema constraints. -/
theorem C8_tag_replacement (db : DB) (i : Nat) (ts1 ts2 : List String)
    (h : DBInv db) :
    itemTagNames (relinkTags (relinkTags db i ts1) i ts2) i = ts2 := by
  obtain ⟨_, _, _, _, t1, t2⟩ := relinkTags_inv db i ts1 h
  exact relinkTags_names _ i ts2 t1 t2

theorem C8_tag_replacement_witness :
    itemTagNames (relinkTags (relinkTags demoDb0 1 ["budget", "taxes"]) 1
      ["zoning"]) 1 = ["zoning"] :=
  C8_tag_replacement demoDb0 1 ["budget", "taxes"] ["zoning"] (by decide)

/-! ### Claim C4: idempotent ingestion -/

theorem upsertMeeting_inv (db : DB) (muniId : Nat) (eid : String) (url : Url)
    (header : MeetingHeader) (mtype : String) (h : DBInv db) :
    DBInv (upsertMeeting db muniId eid url header mtype).1 := by
  obtain ⟨m1, m2, i1, i2, t1, t2⟩ := h
  unfold upsertMeeting
  split
  next m hm =>
    refine ⟨?_, ?_, i1, i2, t1, t2⟩
    · dsimp only
      apply pairwise_updateFirst
      · intro a b hr; exact hr
      · intro a b hr; exact hr
      · exact m1
    · intro r hr
      dsimp only at hr
      rcases mem_updateFirst hr with ⟨z, hz, heq | heq⟩
      · rw [heq]; exact m2 z hz
      · rw [heq]; exact m2 z hz
  next hnone =>
    refine ⟨?_, ?_, i1, i2, t1, t2⟩
    · rw [List.pairwise_append]
      refine ⟨m1, List.pairwise_singleton _ _, ?_⟩
      intro a ha b hb
      rw [List.mem_singleton.mp hb]
      have hne := List.find?_eq_none.mp hnone a ha
      simpa using hne
    · intro r hr
      rcases List.mem_append.mp hr with hm | hm
      · exact Nat.lt_succ_of_lt (m2 r hm)
      · rw [List.mem_singleton.mp hm]
        exact Nat.lt_succ_self _

theorem upsertItem_inv (db : DB) (mid : Nat) (it : ParsedItem) (s : String)
    (tg : List String) (off : Nat) (h : DBInv db) :
    DBInv (upsertItem db mid it s tg off) := by
  obtain ⟨m1, m2, i1, i2, t1, t2⟩ := h
  unfold upsertItem
  split
  next row hrow =>
    apply relinkTags_inv
    refine ⟨m1, m2, ?_, ?_, t1, t2⟩
    · dsimp only
      apply pairwise_updateFirst
      · intro a b hr; exact hr
      · intro a b hr; exact hr
      · exact i1
    · intro r hr
      dsimp only at hr
      rcases mem_updateFirst hr with ⟨z, hz, heq | heq⟩
      · rw [heq]; exact i2 z hz
      · rw [heq]; exact i2 z hz
  next hnone =>
    apply relinkTags_inv
    refine ⟨m1, m2, ?_, ?_, t1, t2⟩
    · rw [List.pairwise_append]
      refine ⟨i1, List.pairwise_singleton _ _, ?_⟩
      intro a ha b hb
      rw [List.mem_singleton.mp hb]
      have hne := List.find?_eq_none.mp hnone a ha
      simp only [decide_eq_true_eq] at hne
      rw [not_and_or] at hne
      exact hne
    · intro r hr
      rcases List.mem_append.mp hr with hm | hm
      · exact Nat.lt_succ_of_lt (i2 r hm)
      · rw [List.mem_singleton.mp hm]
        exact Nat.lt_succ_self _

theorem upsertItems_inv (classify : String → String × List String) (mid : Nat) :
    ∀ (items : List ParsedItem) (db : DB) (off : Nat),
      DBInv db → DBInv (upsertItems classify db mid items off) := by
  intro items
  induction items with
  | nil => intro db off h; exact h
  | cons it rest ih =>
    intro db off h
    rw [upsertItems]
    exact ih _ _ (upsertItem_inv db mid it _ _ off h)

theorem upsertItem_find_isSome_mono (db : DB) (mid : Nat) (it : ParsedItem)
    (s : String) (tg : List String) (off : Nat) (n : String)
    (h : (db.items.find? (fun r => r.meeting_id = mid ∧ r.item_number = n)).isSome
      = true) :
    ((upsertItem db mid it s tg off).items.find?
      (fun r => r.meeting_id = mid ∧ r.item_number = n)).isSome = true := by
  by_cases hn : n = it.item_number
  · subst hn
    obtain ⟨r, hr, _⟩ := upsertItem_find_self db mid it s tg off
    rw [hr]
    rfl
  · rw [upsertItem_find_other db mid it s tg off n hn]
    exact h

theorem upsertItems_find_isSome_mono (classify : String → String × List String)
    (mid : Nat) :
    ∀ (items : List ParsedItem) (db : DB) (off : Nat) (n : String),
      (db.items.find? (fun r => r.meeting_id = mid ∧ r.item_number = n)).isSome
          = true →
      ((upsertItems classify db mid items off).items.find?
        (fun r => r.meeting_id = mid ∧ r.item_number = n)).isSome = true := by
  intro items
  induction items with
  | nil => intro db off n h; exact h
  | cons it rest ih =>
    intro db off n h
    rw [upsertItems]
    exact ih _ _ n (upsertItem_find_isSome_mono db mid it _ _ off n h)

theorem upsertItems_exists (classify : String → String × List String) (mid : Nat) :
    ∀ (items : List ParsedItem) (db : DB) (off : Nat) (it : ParsedItem),
      it ∈ items →
      ((upsertItems classify db mid items off).items.find?
        (fun r => r.meeting_id = mid ∧ r.item_number = it.item_number)).isSome
        = true := by
  intro items
  induction items with
  | nil => intro db off it h; cases h
  | cons it0 rest ih =>
    intro db off it h
    rw [upsertItems]
    rcases List.mem_cons.mp h with heq | hmem
    · subst heq
      apply upsertItems_find_isSome_mono
      obtain ⟨r, hr, _⟩ := upsertItem_find_self db mid it _ _ off
      rw [hr]
      rfl
    · exact ih _ _ it hmem

theorem upsertItem_keys_of_found (db : DB) (mid : Nat) (it : ParsedItem)
    (s : String) (tg : List String) (off : Nat)
    (hfound : (db.items.find?
      (fun r => r.meeting_id = mid ∧ r.item_number = it.item_number)).isSome = true) :
    (upsertItem db mid it s tg off).items.map
        (fun r => (r.id, r.meeting_id, r.item_number))
      = db.items.map (fun r => (r.id, r.meeting_id, r.item_number)) := by
  unfold upsertItem
  split
  next row hrow =>
    rw [relinkTags_items]
    dsimp only
    apply updateFirst_map
    intro x _
    rfl
  next hnone =>
    rw [hnone] at hfound
    cases hfound

theorem upsertItems_keys_of_all_found (classify : String → String × List String)
    (mid : Nat) :
    ∀ (items : List ParsedItem) (db : DB) (off : Nat),
      (∀ it ∈ items, (db.items.find?
        (fun r => r.meeting_id = mid ∧ r.item_number = it.item_number)).isSome
          = true) →
      (upsertItems classify db mid items off).items.map
          (fun r => (r.id, r.meeting_id, r.item_number))
        = db.items.map (fun r => (r.id, r.meeting_id, r.item_number)) := by
  intro items
  induction items with
  | nil => intro db off _; rfl
  | cons it rest ih =>
    intro db off hall
    rw [upsertItems]
    rw [ih _ _ (fun it' hit' => upsertItem_find_isSome_mono db mid it _ _ off
      it'.item_number (hall it' (List.mem_cons_of_mem it hit')))]
    exact upsertItem_keys_of_found db mid it _ _ off (hall it (List.mem_cons_self it rest))

theorem map_id_of_keys_eq {l1 l2 : List ItemRow}
    (h : l1.map (fun r => (r.id, r.meeting_id, r.item_number))
      = l2.map (fun r => (r.id, r.meeting_id, r.item_number))) :
    l1.map (fun r => r.id) = l2.map (fun r => r.id) := by
  have h1 := congrArg (List.map (fun t : Nat × Nat × String => t.1)) h
  rw [List.map_map, List.map_map] at h1
  exact h1

theorem countP_key_of_keys_eq {l1 l2 : List ItemRow}
    (h : l1.map (fun r => (r.id, r.meeting_id, r.item_number))
      = l2.map (fun r => (r.id, r.meeting_id, r.item_number)))
    (mid : Nat) (n : String) :
    l1.countP (fun r => r.meeting_id = mid ∧ r.item_number = n)
      = l2.countP (fun r => r.meeting_id = mid ∧ r.item_number = n) := by
  have h1 := congrArg
    (List.countP (fun t : Nat × Nat × String => decide (t.2.1 = mid ∧ t.2.2 = n))) h
  rw [List.countP_map, List.countP_map] at h1
  exact h1

theorem upsertMeeting_find (db : DB) (muniId : Nat) (eid : String) (url : Url)
    (header : MeetingHeader) (mtype : String) :
    ∃ m, (upsertMeeting db muniId eid url header mtype).1.meetings.find?
        (fun r => r.external_id = eid) = some m ∧
      m.id = (upsertMeeting db muniId eid url header mtype).2 := by
  unfold upsertMeeting
  split
  next m hm =>
    dsimp only
    refine ⟨({ m with
        title := header.title,
        mtype := mtype,
        start_datetime := header.start_datetime,
        end_datetime := header.end_datetime,
        location := header.location,
        agenda_url := url.raw,
        livestream_url := GUELPH_LIVESTREAM_URL } : MeetingRow), ?_, rfl⟩
    rw [find?_updateFirst_self
        (fun r => decide (r.external_id = eid))
        (fun r => ({ r with
          title := header.title,
          mtype := mtype,
          start_datetime := header.start_datetime,
          end_datetime := header.end_datetime,
          location := header.location,
          agenda_url := url.raw,
          livestream_url := GUELPH_LIVESTREAM_URL } : MeetingRow))
        (fun x => rfl), hm]
    rfl
  next hnone =>
    dsimp only
    refine ⟨({
        id := db.nextMeetingId,
        municipality_id := muniId,
        external_id := eid,
        title := header.title,
        mtype := mtype,
        start_datetime := header.start_datetime,
        end_datetime := header.end_datetime,
        location := header.location,
        status := "scheduled",
        agenda_url := url.raw,
        livestream_url := GUELPH_LIVESTREAM_URL } : MeetingRow), ?_, rfl⟩
    rw [List.find?_append, hnone]
    show Option.or none _ = _
    rw [Option.none_or]
    simp

theorem upsertMeeting_of_found (db : DB) (muniId : Nat) (eid : String) (url : Url)
    (header : MeetingHeader) (mtype : String) (m : MeetingRow)
    (hm : db.meetings.find? (fun r => r.external_id = eid) = some m) :
    (upsertMeeting db muniId eid url header mtype).2 = m.id ∧
      (upsertMeeting db muniId eid url header mtype).1.meetings.map
          (fun r => r.id)
        = db.meetings.map (fun r => r.id) ∧
      (upsertMeeting db muniId eid url header mtype).1.meetings.countP
          (fun r => r.external_id = eid)
        = db.meetings.countP (fun r => r.external_id = eid) := by
  unfold upsertMeeting
  rw [hm]
  dsimp only
  refine ⟨rfl, ?_, ?_⟩
  · apply updateFirst_map
    intro x _
    rfl
  · apply countP_updateFirst
    intro x
    rfl

theorem ingestParsed_ok_post (dtp : String → Int) (loc : Int → Int)
    (cmb : Int → Int → Int) (classify : String → String × List String)
    (url : Url) (slug : String) (html : HtmlDoc) (db db' : DB) (mid : Nat)
    (hinv : DBInv db)
    (hr : ingestParsed dtp loc cmb classify url slug html db = .ok (db', mid)) :
    DBInv db' ∧
      db'.munis = db.munis ∧
      (∃ muni, db.munis.find? (fun m => m.slug = slug) = some muni) ∧
      (∀ eid, extractGuid url = .ok eid →
        ∃ m, db'.meetings.find? (fun r => r.external_id = eid) = some m ∧
          m.id = mid) ∧
      (∀ it ∈ parseAgendaItems html.containers,
        (db'.items.find?
          (fun r => r.meeting_id = mid ∧ r.item_number = it.item_number)).isSome
          = true) := by
  unfold ingestParsed at hr
  cases hmu : db.munis.find? (fun m => m.slug = slug) with
  | none =>
    rw [hmu] at hr
    cases hr
  | some muni =>
    rw [hmu] at hr
    cases hg0 : extractGuid url with
    | error e =>
      rw [hg0] at hr
      cases hr
    | ok eid0 =>
      rw [hg0] at hr
      dsimp only at hr
      injection hr with hpair
      injection hpair with h1 h2
      subst h1
      subst h2
      refine ⟨?_, ?_, ⟨muni, rfl⟩, ?_, ?_⟩
      · exact upsertItems_inv classify _ _ _ 0
          (upsertMeeting_inv db muni.id eid0 url _ _ hinv)
      · rw [(upsertItems_frame classify _ _ _ _).1,
          (upsertMeeting_frame db muni.id eid0 url _ _).1]
      · intro eid hgeid
        injection hgeid with heid
        subst heid
        obtain ⟨m, hm, hmid2⟩ := upsertMeeting_find db muni.id eid0 url _ _
        refine ⟨m, ?_, hmid2⟩
        rw [(upsertItems_frame classify _ _ _ _).2.1]
        exact hm
      · intro it hit
        exact upsertItems_exists classify _ _ _ 0 it hit

theorem meetings_key_pairwise {l : List MeetingRow}
    (h : l.Pairwise (fun a b => a.external_id ≠ b.external_id)) (eid : String) :
    l.Pairwise (fun a b => (decide (a.external_id = eid)) = true →
      (decide (b.external_id = eid)) = false) := by
  refine h.imp ?_
  intro a b hne ha
  simp only [decide_eq_true_eq] at ha
  simp only [decide_eq_false_iff_not]
  intro hb
  exact hne (ha.trans hb.symm)

theorem items_key_pairwise {l : List ItemRow}
    (h : l.Pairwise
      (fun a b => a.meeting_id ≠ b.meeting_id ∨ a.item_number ≠ b.item_number))
    (mid : Nat) (n : String) :
    l.Pairwise (fun a b =>
      (decide (a.meeting_id = mid ∧ a.item_number = n)) = true →
      (decide (b.meeting_id = mid ∧ b.item_number = n)) = false) := by
  refine h.imp ?_
  intro a b hne ha
  simp only [decide_eq_true_eq] at ha
  simp only [decide_eq_false_iff_not]
  rintro ⟨hb1, hb2⟩
  rcases hne with h1 | h1
  · exact h1 (ha.1.trans hb1.symm)
  · exact h1 (ha.2.trans hb2.symm)

/-- C4: ingesting the same source document twice (same URL, hence the same
    external identifier, and the same parsed HTML) leaves exactly one
    meeting row for that external identifier and exactly one agenda item
    row per parsed item_number; the second run updates the existing rows
    in place — the row ids of both tables are unchanged — rather than
    creating duplicates. -/
theorem C4_ingest_idempotent (dtp : String → Int) (loc : Int → Int)
    (cmb : Int → Int → Int) (classify : String → String × List String)
    (url : Url) (slug : String) (html : HtmlDoc) (db0 db1 : DB) (mid : Nat)
    (eid : String) (hinv : DBInv db0) (hg : extractGuid url = .ok eid)
    (h1 : ingestParsed dtp loc cmb classify url slug html db0 = .ok (db1, mid)) :
    ∃ db2, ingestParsed dtp loc cmb classify url slug html db1 = .ok (db2, mid) ∧
      db2.meetings.countP (fun m => m.external_id = eid) = 1 ∧
      (∀ n ∈ (parseAgendaItems html.containers).map (fun it => it.item_number),
        db2.items.countP (fun r => r.meeting_id = mid ∧ r.item_number = n) = 1) ∧
      db2.meetings.map (fun m => m.id) = db1.meetings.map (fun m => m.id) ∧
      db2.items.map (fun r => r.id) = db1.items.map (fun r => r.id) := by
  obtain ⟨hinv1, hmunis, ⟨muni, hmuni0⟩, hmeet, hitems⟩ :=
    ingestParsed_ok_post dtp loc cmb classify url slug html db0 db1 mid hinv h1
  obtain ⟨m, hm, hmid⟩ := hmeet eid hg
  obtain ⟨minv1, _, iinv1, _, _, _⟩ := hinv1
  have hmuni1 : db1.munis.find? (fun mm => mm.slug = slug) = some muni := by
    rw [hmunis]
    exact hmuni0
  obtain ⟨hmid2, hmapids, hcountP⟩ := upsertMeeting_of_found db1 muni.id eid url
    (parseMeetingHeader dtp loc cmb html)
    (inferMeetingType (parseMeetingHeader dtp loc cmb html).title) m hm
  have e2 : (upsertMeeting db1 muni.id eid url
      (parseMeetingHeader dtp loc cmb html)
      (inferMeetingType (parseMeetingHeader dtp loc cmb html).title)).2 = mid :=
    hmid2.trans hmid
  have hrun2 : ingestParsed dtp loc cmb classify url slug html db1
      = .ok (upsertItems classify
          (upsertMeeting db1 muni.id eid url
            (parseMeetingHeader dtp loc cmb html)
            (inferMeetingType (parseMeetingHeader dtp loc cmb html).title)).1
          mid (parseAgendaItems html.containers) 0, mid) := by
    unfold ingestParsed
    rw [hmuni1, hg]
    dsimp only
    rw [e2]
  have hfr := upsertMeeting_frame db1 muni.id eid url
    (parseMeetingHeader dtp loc cmb html)
    (inferMeetingType (parseMeetingHeader dtp loc cmb html).title)
  have hall : ∀ it ∈ parseAgendaItems html.containers,
      (((upsertMeeting db1 muni.id eid url
        (parseMeetingHeader dtp loc cmb html)
        (inferMeetingType (parseMeetingHeader dtp loc cmb html).title)).1).items.find?
        (fun r => r.meeting_id = mid ∧ r.item_number = it.item_number)).isSome
        = true := by
    intro it hit
    rw [hfr.2.1]
    exact hitems it hit
  have hkeys := upsertItems_keys_of_all_found classify mid
    (parseAgendaItems html.containers)
    (upsertMeeting db1 muni.id eid url
      (parseMeetingHeader dtp loc cmb html)
      (inferMeetingType (parseMeetingHeader dtp loc cmb html).title)).1 0 hall
  rw [hfr.2.1] at hkeys
  have hifr := upsertItems_frame classify mid (parseAgendaItems html.containers)
    (upsertMeeting db1 muni.id eid url
      (parseMeetingHeader dtp loc cmb html)
      (inferMeetingType (parseMeetingHeader dtp loc cmb html).title)).1 0
  refine ⟨_, hrun2, ?_, ?_, ?_, ?_⟩
  · rw [hifr.2.1, hcountP]
    exact countP_eq_one_of_find? (meetings_key_pairwise minv1 eid) hm
  · intro n hn
    rw [countP_key_of_keys_eq hkeys mid n]
    rcases List.mem_map.mp hn with ⟨it, hit, rfl⟩
    have hsome := hitems it hit
    rcases Option.isSome_iff_exists.mp hsome with ⟨r, hr⟩
    exact countP_eq_one_of_find? (items_key_pairwise iinv1 mid it.item_number) hr
  · rw [hifr.2.1]
    exact hmapids
  · exact map_id_of_keys_eq hkeys

/-- A concrete agenda document with one public and one closed container. -/
def demoHtml : HtmlDoc :=
  { headerTitleText := some "City Council Meeting Agenda",
    startAttr := some "2025-05-27 16:00", endAttr := some "22:00",
    locationText := some "Council Chambers", address1Text := none,
    containers := [demoOpenC, demoClosedC] }

/-- The result of a first concrete ingestion run. -/
def demoRun1 : DB × Nat :=
  match ingestParsed (fun _ => 0) (fun x => x) (fun s _ => s)
      keywordSummarizeAndTag demoUrl "guelph" demoHtml demoDb0 with
  | .ok p => p
  | .error _ => (demoDb0, 0)

theorem C4_ingest_idempotent_witness :
    ∃ db2, ingestParsed (fun _ => 0) (fun x => x) (fun s _ => s)
        keywordSummarizeAndTag demoUrl "guelph" demoHtml demoRun1.1
        = .ok (db2, demoRun1.2) ∧
      db2.meetings.countP (fun m => m.external_id = "abc-123") = 1 ∧
      (∀ n ∈ (parseAgendaItems demoHtml.containers).map (fun it => it.item_number),
        db2.items.countP
          (fun r => r.meeting_id = demoRun1.2 ∧ r.item_number = n) = 1) ∧
      db2.meetings.map (fun m => m.id) = demoRun1.1.meetings.map (fun m => m.id) ∧
      db2.items.map (fun r => r.id) = demoRun1.1.items.map (fun r => r.id) :=
  C4_ingest_idempotent (fun _ => 0) (fun x => x) (fun s _ => s)
    keywordSummarizeAndTag demoUrl "guelph" demoHtml demoDb0 demoRun1.1
    demoRun1.2 "abc-123" (by decide) rfl rfl

end CogCouncil
